import Mathlib

/-!
Verification of the neo-go trust-decision core: the script classifier
(`ParseMultiSigContract`, `IsSignatureContract`, `IsMultiSigContract`,
`IsStandardContract` from the vm package) and the manifest permission
engine (`IsValid`, `IsAllowed`, `CanCall`), together with the
`historicConverter` dispatch helper of the invoker package.

Scripts are modelled as lists of naturals (bytes).  Go functions that can
panic on an index/slice violation are embedded into `POr`, where
`POr.panicked` marks exactly the program points at which the Go code would
fault (`param[0]`, `binary.LittleEndian.Uint16/Uint32` on short slices),
so that panic-freedom is a provable statement rather than an artifact of
Lean totality.
-/

namespace NeoGo

/-- Outcome of a Go computation: either a runtime panic or a normal value. -/
inductive POr (α : Type) where
  | panicked : POr α
  | ok : α → POr α
  deriving DecidableEq

/-- Modelled from the spec: the protocol's maximum array size used by the
VM (`MaxArraySize`); its definition is not part of the sources, only its
role as the upper bound on multisig counts. -/
def MaxArraySize : Nat := 1024

/-- Modelled from the spec: opcode byte values of the VM's instruction set
(the `opcode` package is not part of the sources).  Only the opcodes the
classifier distinguishes are given values; all are pairwise distinct and
`PUSH1..PUSH16` occupy a consecutive range, which is all the classifier
relies on. -/
def PUSHBYTES1 : Nat := 0x00

/-- One-byte opcode pushing a 2-byte little-endian immediate. -/
def PUSHBYTES2 : Nat := 0x01

/-- Opcode pushing a null value. -/
def PUSHNULL : Nat := 0x0B

/-- Opcode pushing data with a 1-byte length prefix. -/
def PUSHDATA1 : Nat := 0x0C

/-- Small-integer push opcode for 1. -/
def PUSH1 : Nat := 0x11

/-- Small-integer push opcode for 16. -/
def PUSH16 : Nat := 0x20

/-- Return opcode. -/
def RET : Nat := 0x40

/-- Interop invocation opcode, followed by a 4-byte identifier. -/
def SYSCALL : Nat := 0x41

/-- Modelled from the spec: interop-call identifier resolution
(`emit.InteropNameToID`) is a pure map from syscall names to fixed 32-bit
identifiers; this is the identifier of `Neo.Crypto.ECDsaVerify`. -/
def verifyInteropID : Nat := 3563753482

/-- Modelled from the spec: the identifier of `Neo.Crypto.ECDsaCheckMultiSig`. -/
def multisigInteropID : Nat := 3149099824

/-- `binary.LittleEndian.Uint16`: panics when fewer than two bytes are
available, otherwise reads the first two bytes little-endian. -/
def uint16LE (p : List Nat) : POr Nat :=
  match p with
  | a :: b :: _ => POr.ok (a + 256 * b)
  | _ => POr.panicked

/-- `binary.LittleEndian.Uint32`: panics when fewer than four bytes are
available, otherwise reads the first four bytes little-endian. -/
def uint32LE (p : List Nat) : POr Nat :=
  match p with
  | a :: b :: c :: d :: _ => POr.ok (a + 256 * (b + 256 * (c + 256 * d)))
  | _ => POr.panicked

/-- `param[0]`: panics on an empty slice. -/
def headPanic (p : List Nat) : POr Nat :=
  match p with
  | a :: _ => POr.ok a
  | [] => POr.panicked

/-- Modelled from the spec: operand size table of the instruction decoder,
restricted to the opcodes the classifier distinguishes; any other byte is
an unknown opcode, which the decoder rejects. -/
def opSize (op : Nat) : Option Nat :=
  if op = PUSHBYTES1 then some 1
  else if op = PUSHBYTES2 then some 2
  else if op = SYSCALL then some 4
  else if op = PUSHNULL ∨ op = RET ∨ (PUSH1 ≤ op ∧ op ≤ PUSH16) then some 0
  else none

/-- Modelled from the spec: the instruction decoder (`Context.Next`).  The
context is represented by the not-yet-consumed suffix of the script; the
decoder returns the opcode, its operand bytes and the remaining suffix, or
`none` on end of script, unknown opcode or truncated operand.  For
`PUSHDATA1` the operand is the data itself, after its 1-byte length
prefix. -/
def next (c : List Nat) : Option (Nat × List Nat × List Nat) :=
  match c with
  | [] => none
  | op :: rest =>
    if op = PUSHDATA1 then
      match rest with
      | [] => none
      | n :: r2 => if n ≤ r2.length then some (op, r2.take n, r2.drop n) else none
    else
      match opSize op with
      | none => none
      | some k => if k ≤ rest.length then some (op, rest.take k, rest.drop k) else none

/-- `getNumOfThingsFromInstr`: decodes a count from a small-integer push
or a one- or two-byte immediate push and range-checks it against
`MaxArraySize`.  `POr.panicked` marks the `param[0]` /
`binary.LittleEndian.Uint16` faults the Go code would hit on a short
operand. -/
def getNumOfThingsFromInstr (instr : Nat) (param : List Nat) : POr (Option Nat) :=
  if PUSH1 ≤ instr ∧ instr ≤ PUSH16 then
    POr.ok (if instr - PUSH1 + 1 < 1 ∨ instr - PUSH1 + 1 > MaxArraySize then none
            else some (instr - PUSH1 + 1))
  else if instr = PUSHBYTES1 then
    match headPanic param with
    | POr.panicked => POr.panicked
    | POr.ok x => POr.ok (if x < 1 ∨ x > MaxArraySize then none else some x)
  else if instr = PUSHBYTES2 then
    match uint16LE param with
    | POr.panicked => POr.panicked
    | POr.ok x => POr.ok (if x < 1 ∨ x > MaxArraySize then none else some x)
  else POr.ok none

theorem next_shrink {c : List Nat} {op : Nat} {p r : List Nat}
    (h : next c = some (op, p, r)) : r.length < c.length := by
  match c with
  | [] => simp [next] at h
  | b :: rest =>
    simp only [next] at h
    split at h
    · match rest with
      | [] => simp at h
      | n :: r2 =>
        simp only at h
        split at h
        · simp only [Option.some.injEq, Prod.mk.injEq] at h
          obtain ⟨-, -, hr⟩ := h
          subst hr
          simp only [List.length_cons, List.length_drop]
          omega
        · simp at h
    · cases hs : opSize b with
      | none => rw [hs] at h; simp at h
      | some k =>
        rw [hs] at h
        simp only at h
        split at h
        · simp only [Option.some.injEq, Prod.mk.injEq] at h
          obtain ⟨-, -, hr⟩ := h
          subst hr
          simp only [List.length_cons, List.length_drop]
          omega
        · simp at h

/-- The public-key collection loop of `ParseMultiSigContract`: consumes
`PUSHDATA1` instructions, rejecting short operands and oversized key
counts, and stops at the first other instruction, returning the keys, the
count and the instruction that broke the loop.  The `fuel` argument makes
the recursion structural; since every decoded instruction consumes at
least one byte, any fuel larger than the length of `ctx` is enough and the
fuel-exhaustion branch is unreachable from `ParseMultiSigContract`
(`parseKeys_fuel_irrel`), so the Go loop is modelled exactly. -/
def parseKeys (fuel : Nat) (ctx : List Nat) (pubs : List (List Nat)) (nkeys : Nat) :
    Option (List (List Nat) × Nat × Nat × List Nat × List Nat) :=
  match fuel with
  | 0 => none
  | fuel + 1 =>
    match next ctx with
    | none => none
    | some (instr, param, ctx2) =>
      if instr = PUSHDATA1 then
        if param.length < 33 then none
        else if nkeys + 1 > MaxArraySize then none
        else parseKeys fuel ctx2 (pubs ++ [param]) (nkeys + 1)
      else some (pubs, nkeys, instr, param, ctx2)

/-- Any fuel beyond the length of the remaining script gives the same
result: the fuel is an artifact of the embedding, not of the loop. -/
theorem parseKeys_fuel_irrel (fuel1 fuel2 : Nat) (ctx : List Nat)
    (pubs : List (List Nat)) (nkeys : Nat)
    (h1 : ctx.length < fuel1) (h2 : ctx.length < fuel2) :
    parseKeys fuel1 ctx pubs nkeys = parseKeys fuel2 ctx pubs nkeys := by
  induction fuel1 generalizing fuel2 ctx pubs nkeys with
  | zero => omega
  | succ f1 ih =>
    match fuel2 with
    | 0 => omega
    | f2 + 1 =>
      simp only [parseKeys]
      cases hn : next ctx with
      | none => rfl
      | some t =>
        obtain ⟨instr, param, ctx2⟩ := t
        have hlt := next_shrink hn
        by_cases hi : instr = PUSHDATA1
        · simp only [hi, if_pos rfl]
          by_cases hp : param.length < 33
          · simp [hp]
          · by_cases hk : nkeys + 1 > MaxArraySize
            · simp [hp, hk]
            · simp only [if_neg hp, if_neg hk]
              exact ih f2 ctx2 _ _ (by omega) (by omega)
        · simp [hi]

/-- `ParseMultiSigContract`: returns the public keys of a canonical
multisig verification script.  The Go pair `([][]byte, bool)` is modelled
as `Option`: `none` is `(nil, false)`, `some pubs` is `(pubs, true)`. -/
def ParseMultiSigContract (script : List Nat) : POr (Option (List (List Nat))) :=
  match next script with
  | none => POr.ok none
  | some (instr, param, ctx) =>
    match getNumOfThingsFromInstr instr param with
    | POr.panicked => POr.panicked
    | POr.ok none => POr.ok none
    | POr.ok (some nsigs) =>
      match parseKeys (ctx.length + 1) ctx [] 0 with
      | none => POr.ok none
      | some (pubs, nkeys, instr2, param2, ctx2) =>
        if nkeys < nsigs then POr.ok none
        else
          match getNumOfThingsFromInstr instr2 param2 with
          | POr.panicked => POr.panicked
          | POr.ok none => POr.ok none
          | POr.ok (some nkeys2) =>
            if nkeys2 ≠ nkeys then POr.ok none
            else
              match next ctx2 with
              | none => POr.ok none
              | some (instr3, _, ctx3) =>
                if instr3 ≠ PUSHNULL then POr.ok none
                else
                  match next ctx3 with
                  | none => POr.ok none
                  | some (instr4, param4, ctx4) =>
                    if instr4 ≠ SYSCALL then POr.ok none
                    else
                      match uint32LE param4 with
                      | POr.panicked => POr.panicked
                      | POr.ok id2 =>
                        if id2 ≠ multisigInteropID then POr.ok none
                        else
                          match next ctx4 with
                          | none => POr.ok none
                          | some (instr5, _, ctx5) =>
                            if instr5 ≠ RET then POr.ok none
                            else if ctx5 ≠ [] then POr.ok none
                            else POr.ok (some pubs)

/-- `IsMultiSigContract`. -/
def IsMultiSigContract (script : List Nat) : POr Bool :=
  match ParseMultiSigContract script with
  | POr.panicked => POr.panicked
  | POr.ok r => POr.ok r.isSome

/-- `IsSignatureContract`. -/
def IsSignatureContract (script : List Nat) : POr Bool :=
  if script.length ≠ 41 then POr.ok false
  else
    match next script with
    | none => POr.ok false
    | some (i1, p1, c1) =>
      if i1 ≠ PUSHDATA1 ∨ p1.length ≠ 33 then POr.ok false
      else
        match next c1 with
        | none => POr.ok false
        | some (i2, _, c2) =>
          if i2 ≠ PUSHNULL then POr.ok false
          else
            match next c2 with
            | none => POr.ok false
            | some (i3, p3, _) =>
              if i3 ≠ SYSCALL then POr.ok false
              else
                match uint32LE p3 with
                | POr.panicked => POr.panicked
                | POr.ok id2 => POr.ok (decide (id2 = verifyInteropID))

/-- `IsStandardContract`, with Go's short-circuit disjunction. -/
def IsStandardContract (script : List Nat) : POr Bool :=
  match IsSignatureContract script with
  | POr.panicked => POr.panicked
  | POr.ok true => POr.ok true
  | POr.ok false => IsMultiSigContract script

/-- Little-endian 4-byte encoding of a 32-bit value. -/
def toLE4 (v : Nat) : List Nat :=
  [v % 256, v / 256 % 256, v / 65536 % 256, v / 16777216 % 256]

/-- The byte emitted by `PUSHDATA1` for a data item: opcode, 1-byte
length, data. -/
def pushData1 (k : List Nat) : List Nat := PUSHDATA1 :: k.length :: k

/-- Modelled from the spec: the canonical numeric push used when building
verification scripts — `PUSH1..PUSH16` for 1..16, a 1-byte immediate up to
255, a 2-byte little-endian immediate beyond. -/
def pushInt (v : Nat) : List Nat :=
  if 1 ≤ v ∧ v ≤ 16 then [PUSH1 + (v - 1)]
  else if v ≤ 255 then [PUSHBYTES1, v]
  else [PUSHBYTES2, v % 256, v / 256]

/-- Modelled from the spec: a multisig verification script with the §4.1
layout but arbitrary declared counts, key operands and trailing bytes, so
that both the canonical script and its §8 rejection variants are
instances. -/
def buildMultiSigScript (m n2 : Nat) (keys : List (List Nat)) (trailing : List Nat) :
    List Nat :=
  pushInt m ++ (keys.map pushData1).flatten ++ pushInt n2 ++
    PUSHNULL :: SYSCALL :: toLE4 multisigInteropID ++ RET :: trailing

/-- Modelled from the spec: the canonical multisig verification script for
threshold `m` and the given keys. -/
def buildMultiSig (m : Nat) (keys : List (List Nat)) : List Nat :=
  buildMultiSigScript m keys.length keys []

/-- Modelled from the spec: the canonical 41-byte signature verification
script for a 33-byte public key. -/
def buildSignatureScript (key : List Nat) : List Nat :=
  PUSHDATA1 :: 33 :: key ++ PUSHNULL :: SYSCALL :: toLE4 verifyInteropID

example : (buildSignatureScript (List.replicate 33 0)).length = 41 := by decide

example : IsSignatureContract (buildSignatureScript (List.replicate 33 0)) = POr.ok true := by
  decide

example : ParseMultiSigContract (buildMultiSig 2 [List.replicate 33 1, List.replicate 33 2]) =
    POr.ok (some [List.replicate 33 1, List.replicate 33 2]) := by decide

example : ParseMultiSigContract (buildMultiSigScript 3 2
    [List.replicate 33 1, List.replicate 33 2] []) = POr.ok none := by decide

example : IsMultiSigContract [PUSHNULL, RET] = POr.ok false := by decide

/-! ### Decoding lemmas -/

theorem next_fixed (op sz : Nat) (p rest : List Nat) (hop : op ≠ PUSHDATA1)
    (hsz : opSize op = some sz) (hp : p.length = sz) :
    next (op :: (p ++ rest)) = some (op, p, rest) := by
  have hle : p.length ≤ (p ++ rest).length := by simp
  simp only [next, if_neg hop, hsz, ← hp, if_pos hle, List.take_left, List.drop_left]

theorem opSize_push (op : Nat) (h1 : PUSH1 ≤ op) (h2 : op ≤ PUSH16) : opSize op = some 0 := by
  simp only [PUSH1, PUSH16] at h1 h2
  simp only [opSize, PUSHBYTES1, PUSHBYTES2, SYSCALL, PUSHNULL, RET, PUSH1, PUSH16]
  rw [if_neg (by omega), if_neg (by omega), if_neg (by omega), if_pos (by omega)]

theorem next_pushData1_append (k rest : List Nat) :
    next (pushData1 k ++ rest) = some (PUSHDATA1, k, rest) := by
  have hle : k.length ≤ (k ++ rest).length := by simp
  simp only [pushData1, List.cons_append, next, if_pos rfl, if_pos hle,
    List.take_left, List.drop_left]
  simp

theorem next_pushNull (rest : List Nat) : next (PUSHNULL :: rest) = some (PUSHNULL, [], rest) :=
  next_fixed PUSHNULL 0 [] rest (by decide) (by decide) rfl

theorem next_ret (rest : List Nat) : next (RET :: rest) = some (RET, [], rest) :=
  next_fixed RET 0 [] rest (by decide) (by decide) rfl

theorem next_syscall (p rest : List Nat) (hp : p.length = 4) :
    next (SYSCALL :: (p ++ rest)) = some (SYSCALL, p, rest) :=
  next_fixed SYSCALL 4 p rest (by decide) (by decide) hp

theorem pushInt_spec (v : Nat) (rest : List Nat) (h1 : 1 ≤ v) (h2 : v ≤ MaxArraySize) :
    ∃ instr param, next (pushInt v ++ rest) = some (instr, param, rest) ∧
      instr ≠ PUSHDATA1 ∧
      getNumOfThingsFromInstr instr param = POr.ok (some v) := by
  simp only [MaxArraySize] at h2
  by_cases hv16 : v ≤ 16
  · refine ⟨PUSH1 + (v - 1), [], ?_, ?_, ?_⟩
    · have hb : pushInt v ++ rest = (PUSH1 + (v - 1)) :: ([] ++ rest) := by
        simp [pushInt, h1, hv16]
      rw [hb]
      exact next_fixed (PUSH1 + (v - 1)) 0 [] rest (by simp only [PUSH1, PUSHDATA1]; omega)
        (opSize_push (PUSH1 + (v - 1)) (by omega) (by simp only [PUSH1, PUSH16]; omega)) rfl
    · simp only [PUSH1, PUSHDATA1]; omega
    · have hcond : PUSH1 ≤ PUSH1 + (v - 1) ∧ PUSH1 + (v - 1) ≤ PUSH16 := by
        simp only [PUSH1, PUSH16]; omega
      have hrange : ¬(PUSH1 + (v - 1) - PUSH1 + 1 < 1 ∨
          PUSH1 + (v - 1) - PUSH1 + 1 > MaxArraySize) := by
        simp only [PUSH1, MaxArraySize]; omega
      have hval : PUSH1 + (v - 1) - PUSH1 + 1 = v := by omega
      simp only [getNumOfThingsFromInstr, if_pos hcond, if_neg hrange, hval]
      rw [if_neg (by simp only [MaxArraySize]; omega)]
  · by_cases hv255 : v ≤ 255
    · have h16' : ¬(1 ≤ v ∧ v ≤ 16) := by omega
      refine ⟨PUSHBYTES1, [v], ?_, by decide, ?_⟩
      · have hb : pushInt v ++ rest = PUSHBYTES1 :: ([v] ++ rest) := by
          simp [pushInt, h16', hv255]
        rw [hb]
        exact next_fixed PUSHBYTES1 1 [v] rest (by decide) (by decide) rfl
      · have hrange : ¬(v < 1 ∨ v > MaxArraySize) := by simp only [MaxArraySize]; omega
        simp only [getNumOfThingsFromInstr,
          if_neg (show ¬(PUSH1 ≤ PUSHBYTES1 ∧ PUSHBYTES1 ≤ PUSH16) by decide),
          if_pos (show PUSHBYTES1 = PUSHBYTES1 from rfl), headPanic, if_neg hrange]
        simp
    · have h16' : ¬(1 ≤ v ∧ v ≤ 16) := by omega
      have h255' : ¬ v ≤ 255 := hv255
      refine ⟨PUSHBYTES2, [v % 256, v / 256], ?_, by decide, ?_⟩
      · have hb : pushInt v ++ rest = PUSHBYTES2 :: ([v % 256, v / 256] ++ rest) := by
          simp [pushInt, h16', h255']
        rw [hb]
        exact next_fixed PUSHBYTES2 2 [v % 256, v / 256] rest (by decide) (by decide) rfl
      · have hv : v % 256 + 256 * (v / 256) = v := Nat.mod_add_div v 256
        have hrange : ¬(v < 1 ∨ v > MaxArraySize) := by simp only [MaxArraySize]; omega
        simp only [getNumOfThingsFromInstr,
          if_neg (show ¬(PUSH1 ≤ PUSHBYTES2 ∧ PUSHBYTES2 ≤ PUSH16) by decide),
          if_neg (show ¬(PUSHBYTES2 = PUSHBYTES1) by decide),
          if_pos (show PUSHBYTES2 = PUSHBYTES2 from rfl), uint16LE, hv, if_neg hrange]
        simp

/-! ### Behaviour of the key-collection loop on built scripts -/

theorem parseKeys_cons_step (k tail : List Nat) (pubs0 : List (List Nat)) (n0 fuel : Nat)
    (hk33 : ¬ k.length < 33) (hcnt : ¬ n0 + 1 > MaxArraySize) :
    parseKeys (fuel + 1) (pushData1 k ++ tail) pubs0 n0
      = parseKeys fuel tail (pubs0 ++ [k]) (n0 + 1) := by
  simp only [parseKeys, next_pushData1_append]
  rw [if_pos trivial, if_neg hk33, if_neg hcnt]

theorem parseKeys_flatten (keys : List (List Nat)) (rest : List Nat)
    (pubs0 : List (List Nat)) (n0 fuel : Nat)
    (hk : ∀ k ∈ keys, 33 ≤ k.length)
    (hcount : n0 + keys.length ≤ MaxArraySize)
    (hfuel : ((keys.map pushData1).flatten ++ rest).length < fuel) :
    parseKeys fuel ((keys.map pushData1).flatten ++ rest) pubs0 n0 =
      parseKeys (rest.length + 1) rest (pubs0 ++ keys) (n0 + keys.length) := by
  induction keys generalizing pubs0 n0 fuel with
  | nil =>
    simp only [List.map_nil, List.flatten_nil, List.nil_append, List.append_nil,
      List.length_nil, Nat.add_zero] at hfuel ⊢
    exact parseKeys_fuel_irrel fuel (rest.length + 1) rest pubs0 n0 hfuel (by omega)
  | cons k ks ih =>
    have hflat : (((k :: ks).map pushData1).flatten ++ rest)
        = pushData1 k ++ ((ks.map pushData1).flatten ++ rest) := by
      simp [List.append_assoc]
    rw [hflat] at hfuel ⊢
    match fuel with
    | 0 => omega
    | fuel + 1 =>
      have hk33 : ¬ (k.length < 33) := by
        have := hk k (by simp)
        omega
      have hcnt : ¬ (n0 + 1 > MaxArraySize) := by
        simp only [List.length_cons] at hcount
        omega
      rw [parseKeys_cons_step k _ pubs0 n0 fuel hk33 hcnt]
      have hfuel' : (((ks.map pushData1).flatten ++ rest)).length < fuel := by
        have hlen : (pushData1 k).length = k.length + 2 := by simp [pushData1]
        simp only [List.length_append, hlen] at hfuel ⊢
        omega
      rw [ih (pubs0 ++ [k]) (n0 + 1) fuel (fun x hx => hk x (by simp [hx]))
        (by simp only [List.length_cons] at hcount ⊢; omega) hfuel']
      have e1 : (pubs0 ++ [k]) ++ ks = pubs0 ++ k :: ks := by simp
      have e2 : n0 + 1 + ks.length = n0 + (k :: ks).length := by
        simp only [List.length_cons]
        omega
      rw [e1, e2]

theorem parseKeys_break (rest : List Nat) (pubs : List (List Nat)) (n : Nat)
    (instr : Nat) (param c2 : List Nat)
    (hnext : next rest = some (instr, param, c2)) (hi : instr ≠ PUSHDATA1) :
    parseKeys (rest.length + 1) rest pubs n = some (pubs, n, instr, param, c2) := by
  simp only [parseKeys, hnext, if_neg hi]

theorem parseKeys_overflow (keys : List (List Nat)) (rest : List Nat)
    (pubs0 : List (List Nat)) (n0 fuel : Nat)
    (hk : ∀ k ∈ keys, 33 ≤ k.length)
    (hover : MaxArraySize < n0 + keys.length)
    (hn0 : n0 ≤ MaxArraySize)
    (hfuel : ((keys.map pushData1).flatten ++ rest).length < fuel) :
    parseKeys fuel ((keys.map pushData1).flatten ++ rest) pubs0 n0 = none := by
  induction keys generalizing pubs0 n0 fuel with
  | nil => simp at hover; omega
  | cons k ks ih =>
    have hflat : (((k :: ks).map pushData1).flatten ++ rest)
        = pushData1 k ++ ((ks.map pushData1).flatten ++ rest) := by
      simp [List.append_assoc]
    rw [hflat] at hfuel ⊢
    match fuel with
    | 0 => omega
    | fuel + 1 =>
      have hk33 : ¬ (k.length < 33) := by
        have := hk k (by simp)
        omega
      by_cases hcnt : n0 + 1 > MaxArraySize
      · simp only [parseKeys, next_pushData1_append]
        rw [if_pos trivial, if_neg hk33, if_pos hcnt]
      · rw [parseKeys_cons_step k _ pubs0 n0 fuel hk33 hcnt]
        have hfuel' : (((ks.map pushData1).flatten ++ rest)).length < fuel := by
          have hlen : (pushData1 k).length = k.length + 2 := by simp [pushData1]
          simp only [List.length_append, hlen] at hfuel ⊢
          omega
        exact ih (pubs0 ++ [k]) (n0 + 1) fuel (fun x hx => hk x (by simp [hx]))
          (by simp only [List.length_cons] at hover ⊢; omega) (by omega) hfuel'

theorem parseKeys_short (keys : List (List Nat)) (rest : List Nat)
    (pubs0 : List (List Nat)) (n0 fuel : Nat)
    (hshort : ∃ k ∈ keys, k.length < 33)
    (hfuel : ((keys.map pushData1).flatten ++ rest).length < fuel) :
    parseKeys fuel ((keys.map pushData1).flatten ++ rest) pubs0 n0 = none := by
  induction keys generalizing pubs0 n0 fuel with
  | nil => simp at hshort
  | cons k ks ih =>
    have hflat : (((k :: ks).map pushData1).flatten ++ rest)
        = pushData1 k ++ ((ks.map pushData1).flatten ++ rest) := by
      simp [List.append_assoc]
    rw [hflat] at hfuel ⊢
    match fuel with
    | 0 => omega
    | fuel + 1 =>
      by_cases hk33 : k.length < 33
      · simp only [parseKeys, next_pushData1_append]
        rw [if_pos trivial, if_pos hk33]
      · by_cases hcnt : n0 + 1 > MaxArraySize
        · simp only [parseKeys, next_pushData1_append]
          rw [if_pos trivial, if_neg hk33, if_pos hcnt]
        · rw [parseKeys_cons_step k _ pubs0 n0 fuel hk33 hcnt]
          have hshort' : ∃ x ∈ ks, x.length < 33 := by
            obtain ⟨x, hx, hxl⟩ := hshort
            rcases List.mem_cons.mp hx with rfl | hx'
            · omega
            · exact ⟨x, hx', hxl⟩
          have hfuel' : (((ks.map pushData1).flatten ++ rest)).length < fuel := by
            have hlen : (pushData1 k).length = k.length + 2 := by simp [pushData1]
            simp only [List.length_append, hlen] at hfuel ⊢
            omega
          exact ih (pubs0 ++ [k]) (n0 + 1) fuel hshort' hfuel'

/-- Evaluation of `ParseMultiSigContract` on any script of the §4.1
layout: acceptance exactly when the declared counts, bounds and
terminator are coherent. -/
theorem parse_build (m n2 : Nat) (keys : List (List Nat)) (trailing : List Nat)
    (hm1 : 1 ≤ m) (hm2 : m ≤ MaxArraySize) (hn1 : 1 ≤ n2) (hn2 : n2 ≤ MaxArraySize)
    (hk : ∀ k ∈ keys, 33 ≤ k.length) :
    ParseMultiSigContract (buildMultiSigScript m n2 keys trailing) =
      POr.ok (if m ≤ keys.length ∧ keys.length ≤ MaxArraySize ∧ n2 = keys.length ∧ trailing = []
              then some keys else none) := by
  have hscript : buildMultiSigScript m n2 keys trailing
      = pushInt m ++ ((keys.map pushData1).flatten ++ (pushInt n2 ++
          (PUSHNULL :: (SYSCALL :: (toLE4 multisigInteropID ++ RET :: trailing))))) := by
    simp [buildMultiSigScript, List.append_assoc]
  obtain ⟨i1, p1, hn1x, hi1, hg1⟩ := pushInt_spec m ((keys.map pushData1).flatten ++
    (pushInt n2 ++ (PUSHNULL :: (SYSCALL :: (toLE4 multisigInteropID ++ RET :: trailing)))))
    hm1 hm2
  rw [hscript]
  simp only [ParseMultiSigContract, hn1x, hg1]
  by_cases hlen : keys.length ≤ MaxArraySize
  · rw [parseKeys_flatten keys _ [] 0 _ hk (by omega) (Nat.lt_succ_self _)]
    simp only [List.nil_append, Nat.zero_add]
    obtain ⟨i2, p2, hn2x, hi2, hg2⟩ := pushInt_spec n2
      (PUSHNULL :: (SYSCALL :: (toLE4 multisigInteropID ++ RET :: trailing))) hn1 hn2
    simp only [parseKeys_break _ keys keys.length i2 p2 _ hn2x hi2]
    by_cases hml : keys.length < m
    · rw [if_pos hml, if_neg (by rintro ⟨h1, -, -, -⟩; omega)]
    · rw [if_neg hml]
      simp only [hg2]
      by_cases hnn : n2 = keys.length
      · rw [if_neg (show ¬(n2 ≠ keys.length) from fun h => h hnn)]
        simp only [next_pushNull]
        rw [if_neg (show ¬(PUSHNULL ≠ PUSHNULL) from fun h => h rfl)]
        simp only [next_syscall (toLE4 multisigInteropID) (RET :: trailing) rfl]
        rw [if_neg (show ¬(SYSCALL ≠ SYSCALL) from fun h => h rfl)]
        have hu : uint32LE (toLE4 multisigInteropID) = POr.ok multisigInteropID := by decide
        simp only [hu]
        rw [if_neg (show ¬(multisigInteropID ≠ multisigInteropID) from fun h => h rfl)]
        simp only [next_ret]
        rw [if_neg (show ¬(RET ≠ RET) from fun h => h rfl)]
        by_cases ht : trailing = []
        · rw [if_neg (show ¬(trailing ≠ []) from fun h => h ht),
            if_pos ⟨by omega, hlen, hnn, ht⟩]
        · rw [if_pos ht, if_neg (by rintro ⟨-, -, -, h4⟩; exact ht h4)]
      · rw [if_pos hnn, if_neg (by rintro ⟨-, -, h3, -⟩; exact hnn h3)]
  · rw [parseKeys_overflow keys _ [] 0 _ hk (by omega) (by omega) (Nat.lt_succ_self _)]
    rw [if_neg (by rintro ⟨-, h2, -, -⟩; omega)]

/-- Complete characterization of the accepted count encodings. -/
theorem getNum_some_iff (instr : Nat) (param : List Nat) (v : Nat) :
    getNumOfThingsFromInstr instr param = POr.ok (some v) ↔
      (1 ≤ v ∧ v ≤ MaxArraySize ∧
        ((PUSH1 ≤ instr ∧ instr ≤ PUSH16 ∧ v = instr - PUSH1 + 1) ∨
         (instr = PUSHBYTES1 ∧ param.head? = some v) ∨
         (instr = PUSHBYTES2 ∧ ∃ a b t, param = a :: b :: t ∧ v = a + 256 * b))) := by
  by_cases hp : PUSH1 ≤ instr ∧ instr ≤ PUSH16
  · simp only [getNumOfThingsFromInstr, if_pos hp]
    constructor
    · intro h
      by_cases hbad : instr - PUSH1 + 1 < 1 ∨ instr - PUSH1 + 1 > MaxArraySize
      · rw [if_pos hbad] at h
        simp at h
      · rw [if_neg hbad] at h
        simp only [POr.ok.injEq, Option.some.injEq] at h
        exact ⟨by omega, by omega, Or.inl ⟨hp.1, hp.2, h.symm⟩⟩
    · rintro ⟨h1, h2, hd⟩
      rcases hd with ⟨-, -, hv⟩ | ⟨hb, -⟩ | ⟨hb, -⟩
      · subst hv
        rw [if_neg (by omega)]
      · exact absurd (hb ▸ hp.1) (by decide)
      · exact absurd (hb ▸ hp.1) (by decide)
  · by_cases hb1 : instr = PUSHBYTES1
    · subst hb1
      simp only [getNumOfThingsFromInstr, if_neg hp, if_pos rfl]
      rw [if_pos trivial]
      cases param with
      | nil =>
        constructor
        · intro h
          simp [headPanic] at h
        · rintro ⟨-, -, hd⟩
          rcases hd with ⟨h17, -, -⟩ | ⟨-, hh⟩ | ⟨-, a, b, t, ht, -⟩
          · exact absurd h17 (by decide)
          · simp at hh
          · simp at ht
      | cons a t =>
        simp only [headPanic]
        constructor
        · intro h
          by_cases hbad : a < 1 ∨ a > MaxArraySize
          · rw [if_pos hbad] at h
            simp at h
          · rw [if_neg hbad] at h
            simp only [POr.ok.injEq, Option.some.injEq] at h
            subst h
            exact ⟨by omega, by omega, Or.inr (Or.inl ⟨trivial, rfl⟩)⟩
        · rintro ⟨h1, h2, hd⟩
          rcases hd with ⟨h17, -, -⟩ | ⟨-, hh⟩ | ⟨hbb, -⟩
          · exact absurd h17 (by decide)
          · simp only [List.head?_cons, Option.some.injEq] at hh
            subst hh
            rw [if_neg (by omega)]
          · exact absurd hbb (by decide)
    · by_cases hb2 : instr = PUSHBYTES2
      · subst hb2
        simp only [getNumOfThingsFromInstr, if_neg hp,
          if_neg (by decide : ¬(PUSHBYTES2 = PUSHBYTES1)), if_pos rfl]
        rw [if_pos trivial]
        match param with
        | [] =>
          constructor
          · intro h
            simp [uint16LE] at h
          · rintro ⟨-, -, hd⟩
            rcases hd with ⟨h17, -, -⟩ | ⟨hbb, -⟩ | ⟨-, a, b, t, ht, -⟩
            · exact absurd h17 (by decide)
            · exact absurd hbb (by decide)
            · simp at ht
        | [a] =>
          constructor
          · intro h
            simp [uint16LE] at h
          · rintro ⟨-, -, hd⟩
            rcases hd with ⟨h17, -, -⟩ | ⟨hbb, -⟩ | ⟨-, x, y, t, ht, -⟩
            · exact absurd h17 (by decide)
            · exact absurd hbb (by decide)
            · simp at ht
        | a :: b :: t =>
          simp only [uint16LE]
          constructor
          · intro h
            by_cases hbad : a + 256 * b < 1 ∨ a + 256 * b > MaxArraySize
            · rw [if_pos hbad] at h
              simp at h
            · rw [if_neg hbad] at h
              simp only [POr.ok.injEq, Option.some.injEq] at h
              subst h
              exact ⟨by omega, by omega, Or.inr (Or.inr ⟨trivial, a, b, t, rfl, rfl⟩)⟩
          · rintro ⟨h1, h2, hd⟩
            rcases hd with ⟨h17, -, -⟩ | ⟨hbb, -⟩ | ⟨-, x, y, s, ht, hv⟩
            · exact absurd h17 (by decide)
            · exact absurd hbb (by decide)
            · simp only [List.cons.injEq] at ht
              obtain ⟨rfl, rfl, -⟩ := ht
              subst hv
              rw [if_neg (by omega)]
      · simp only [getNumOfThingsFromInstr, if_neg hp, if_neg hb1, if_neg hb2]
        constructor
        · intro h
          simp at h
        · rintro ⟨-, -, hd⟩
          rcases hd with ⟨h17, h32, -⟩ | ⟨hb, -⟩ | ⟨hb, -⟩
          · exact absurd ⟨h17, h32⟩ hp
          · exact absurd hb hb1
          · exact absurd hb hb2

/-- C2: a multisig-shaped script with mismatched second count, with a
declared threshold exceeding the key count, with a short public-key
operand, or with trailing bytes after `RET`, is rejected with
`(nil, false)`. -/
theorem multisig_malformed_rejected :
    (∀ m n2 keys trailing, 1 ≤ m → m ≤ MaxArraySize → 1 ≤ n2 → n2 ≤ MaxArraySize →
      (∀ k ∈ keys, 33 ≤ k.length) → n2 ≠ keys.length →
      ParseMultiSigContract (buildMultiSigScript m n2 keys trailing) = POr.ok none) ∧
    (∀ m n2 keys trailing, 1 ≤ m → m ≤ MaxArraySize → 1 ≤ n2 → n2 ≤ MaxArraySize →
      (∀ k ∈ keys, 33 ≤ k.length) → keys.length < m →
      ParseMultiSigContract (buildMultiSigScript m n2 keys trailing) = POr.ok none) ∧
    (∀ m n2 keys trailing, 1 ≤ m → m ≤ MaxArraySize →
      (∃ k ∈ keys, k.length < 33) →
      ParseMultiSigContract (buildMultiSigScript m n2 keys trailing) = POr.ok none) ∧
    (∀ m keys trailing, 1 ≤ m → m ≤ keys.length → keys.length ≤ MaxArraySize →
      (∀ k ∈ keys, 33 ≤ k.length) → trailing ≠ [] →
      ParseMultiSigContract (buildMultiSigScript m keys.length keys trailing) = POr.ok none) := by
  refine ⟨?_, ?_, ?_, ?_⟩
  · intro m n2 keys trailing hm1 hm2 hn1 hn2 hk hne
    rw [parse_build m n2 keys trailing hm1 hm2 hn1 hn2 hk,
      if_neg (by rintro ⟨-, -, h3, -⟩; exact hne h3)]
  · intro m n2 keys trailing hm1 hm2 hn1 hn2 hk hlt
    rw [parse_build m n2 keys trailing hm1 hm2 hn1 hn2 hk,
      if_neg (by rintro ⟨h1, -, -, -⟩; omega)]
  · intro m n2 keys trailing hm1 hm2 hshort
    have hscript : buildMultiSigScript m n2 keys trailing
        = pushInt m ++ ((keys.map pushData1).flatten ++ (pushInt n2 ++
            (PUSHNULL :: (SYSCALL :: (toLE4 multisigInteropID ++ RET :: trailing))))) := by
      simp [buildMultiSigScript, List.append_assoc]
    obtain ⟨i1, p1, hn1x, hi1, hg1⟩ := pushInt_spec m ((keys.map pushData1).flatten ++
      (pushInt n2 ++ (PUSHNULL :: (SYSCALL :: (toLE4 multisigInteropID ++ RET :: trailing)))))
      hm1 hm2
    rw [hscript]
    simp only [ParseMultiSigContract, hn1x, hg1]
    rw [parseKeys_short keys _ [] 0 _ hshort (Nat.lt_succ_self _)]
  · intro m keys trailing hm1 hml hlen hk htr
    rw [parse_build m keys.length keys trailing hm1 (by omega) (by omega) hlen hk,
      if_neg (by rintro ⟨-, -, -, h4⟩; exact htr h4)]

/-- C2 witness: all four rejection shapes at concrete inputs. -/
theorem multisig_malformed_rejected_witness :
    ParseMultiSigContract (buildMultiSigScript 1 2 [List.replicate 33 0] []) = POr.ok none ∧
    ParseMultiSigContract (buildMultiSigScript 2 1 [List.replicate 33 0] []) = POr.ok none ∧
    ParseMultiSigContract (buildMultiSigScript 1 1 [List.replicate 32 0] []) = POr.ok none ∧
    ParseMultiSigContract (buildMultiSigScript 1 1 [List.replicate 33 0] [0]) = POr.ok none :=
  ⟨multisig_malformed_rejected.1 1 2 [List.replicate 33 0] [] (by decide) (by decide)
      (by decide) (by decide) (by decide) (by decide),
    multisig_malformed_rejected.2.1 2 1 [List.replicate 33 0] [] (by decide) (by decide)
      (by decide) (by decide) (by decide) (by decide),
    multisig_malformed_rejected.2.2.1 1 1 [List.replicate 32 0] [] (by decide) (by decide)
      ⟨List.replicate 32 0, by decide, by decide⟩,
    multisig_malformed_rejected.2.2.2 1 [List.replicate 33 0] [0] (by decide) (by decide)
      (by decide) (by decide) (by decide)⟩

/-- C3: round-trip — the canonical multisig script built from a threshold
`m` and keys `k_1..k_n` (with `1 ≤ m ≤ n ≤ MaxArraySize`, 33-byte keys)
parses back to exactly that key list with `ok = true`, and the script's
declared threshold decodes to `m`. -/
theorem multisig_roundtrip (m : Nat) (keys : List (List Nat))
    (hm1 : 1 ≤ m) (hml : m ≤ keys.length) (hlen : keys.length ≤ MaxArraySize)
    (hk : ∀ k ∈ keys, k.length = 33) :
    ParseMultiSigContract (buildMultiSig m keys) = POr.ok (some keys) ∧
    ∃ instr param c, next (buildMultiSig m keys) = some (instr, param, c) ∧
      getNumOfThingsFromInstr instr param = POr.ok (some m) := by
  have hk' : ∀ k ∈ keys, 33 ≤ k.length := fun k hkm => (hk k hkm).ge
  constructor
  · rw [buildMultiSig,
      parse_build m keys.length keys [] hm1 (by omega) (by omega) hlen hk',
      if_pos ⟨hml, hlen, rfl, rfl⟩]
  · have hscript : buildMultiSig m keys
        = pushInt m ++ ((keys.map pushData1).flatten ++ (pushInt keys.length ++
            (PUSHNULL :: (SYSCALL :: (toLE4 multisigInteropID ++ RET :: ([] : List Nat)))))) := by
      simp [buildMultiSig, buildMultiSigScript, List.append_assoc]
    obtain ⟨i1, p1, hn1x, hi1, hg1⟩ := pushInt_spec m ((keys.map pushData1).flatten ++
      (pushInt keys.length ++ (PUSHNULL :: (SYSCALL :: (toLE4 multisigInteropID ++
        RET :: ([] : List Nat)))))) hm1 (by omega)
    exact ⟨i1, p1, _, by rw [hscript]; exact hn1x, hg1⟩

/-- C3 witness: a concrete 1-of-1 round trip. -/
theorem multisig_roundtrip_witness :
    ParseMultiSigContract (buildMultiSig 1 [List.replicate 33 5]) =
      POr.ok (some [List.replicate 33 5]) ∧
    ∃ instr param c, next (buildMultiSig 1 [List.replicate 33 5]) = some (instr, param, c) ∧
      getNumOfThingsFromInstr instr param = POr.ok (some 1) :=
  multisig_roundtrip 1 [List.replicate 33 5] (by decide) (by decide) (by decide) (by decide)

/-- C5: counts are accepted exactly from `PUSH1..PUSH16` or one- or
two-byte immediate pushes, range-checked into `[1, MaxArraySize]`; a threshold
exceeding the key count is rejected, and the second declared count must
equal the key count exactly. -/
theorem count_encoding_rules :
    (∀ instr param v, getNumOfThingsFromInstr instr param = POr.ok (some v) ↔
      (1 ≤ v ∧ v ≤ MaxArraySize ∧
        ((PUSH1 ≤ instr ∧ instr ≤ PUSH16 ∧ v = instr - PUSH1 + 1) ∨
         (instr = PUSHBYTES1 ∧ param.head? = some v) ∨
         (instr = PUSHBYTES2 ∧ ∃ a b t, param = a :: b :: t ∧ v = a + 256 * b)))) ∧
    (∀ m n2 keys trailing, 1 ≤ m → m ≤ MaxArraySize → 1 ≤ n2 → n2 ≤ MaxArraySize →
      (∀ k ∈ keys, 33 ≤ k.length) → keys.length < m →
      ParseMultiSigContract (buildMultiSigScript m n2 keys trailing) = POr.ok none) ∧
    (∀ m n2 keys trailing, 1 ≤ m → m ≤ MaxArraySize → 1 ≤ n2 → n2 ≤ MaxArraySize →
      (∀ k ∈ keys, 33 ≤ k.length) → n2 ≠ keys.length →
      ParseMultiSigContract (buildMultiSigScript m n2 keys trailing) = POr.ok none) := by
  refine ⟨getNum_some_iff, ?_, ?_⟩
  · intro m n2 keys trailing hm1 hm2 hn1 hn2 hk hlt
    rw [parse_build m n2 keys trailing hm1 hm2 hn1 hn2 hk,
      if_neg (by rintro ⟨h1, -, -, -⟩; omega)]
  · intro m n2 keys trailing hm1 hm2 hn1 hn2 hk hne
    rw [parse_build m n2 keys trailing hm1 hm2 hn1 hn2 hk,
      if_neg (by rintro ⟨-, -, h3, -⟩; exact hne h3)]

/-- C5 witness: concrete count decodings and rejections. -/
theorem count_encoding_rules_witness :
    getNumOfThingsFromInstr PUSHBYTES1 [20] = POr.ok (some 20) ∧
    getNumOfThingsFromInstr PUSHBYTES2 [0, 8] = POr.ok none ∧
    ParseMultiSigContract (buildMultiSigScript 2 1 [List.replicate 33 0] []) = POr.ok none ∧
    ParseMultiSigContract (buildMultiSigScript 1 2 [List.replicate 33 0] []) = POr.ok none := by
  refine ⟨?_, by decide, ?_, ?_⟩
  · exact (count_encoding_rules.1 PUSHBYTES1 [20] 20).mpr
      ⟨by decide, by decide, Or.inr (Or.inl ⟨rfl, rfl⟩)⟩
  · exact count_encoding_rules.2.1 2 1 [List.replicate 33 0] [] (by decide) (by decide)
      (by decide) (by decide) (by decide) (by decide)
  · exact count_encoding_rules.2.2 1 2 [List.replicate 33 0] [] (by decide) (by decide)
      (by decide) (by decide) (by decide) (by decide)

/-! ### Inversion: reconstructing script bytes from successful decodes -/

/-- The byte encoding inverted by `next`: opcode, then for `PUSHDATA1` a
length prefix, then the operand bytes. -/
def encodeInstr (op : Nat) (p : List Nat) : List Nat :=
  if op = PUSHDATA1 then op :: p.length :: p else op :: p

theorem next_inv {c : List Nat} {op : Nat} {p r : List Nat}
    (h : next c = some (op, p, r)) :
    c = encodeInstr op p ++ r ∧ (op = PUSHDATA1 ∨ opSize op = some p.length) := by
  match c with
  | [] => simp [next] at h
  | b :: rest =>
    simp only [next] at h
    by_cases hb : b = PUSHDATA1
    · rw [if_pos hb] at h
      match rest with
      | [] => simp at h
      | n :: r2 =>
        simp only at h
        by_cases hn : n ≤ r2.length
        · rw [if_pos hn] at h
          simp only [Option.some.injEq, Prod.mk.injEq] at h
          obtain ⟨hop, hp, hr⟩ := h
          subst hop; subst hp; subst hr; subst hb
          refine ⟨?_, Or.inl rfl⟩
          simp only [encodeInstr, if_pos rfl, if_true, List.length_take, Nat.min_eq_left hn,
            List.cons_append, List.take_append_drop]
        · rw [if_neg hn] at h
          simp at h
    · rw [if_neg hb] at h
      cases hs : opSize b with
      | none => rw [hs] at h; simp at h
      | some k =>
        rw [hs] at h
        simp only at h
        by_cases hk : k ≤ rest.length
        · rw [if_pos hk] at h
          simp only [Option.some.injEq, Prod.mk.injEq] at h
          obtain ⟨hop, hp, hr⟩ := h
          subst hop; subst hp; subst hr
          refine ⟨?_, Or.inr ?_⟩
          · simp only [encodeInstr, if_neg hb, List.cons_append, List.take_append_drop]
          · rw [hs, List.length_take, Nat.min_eq_left hk]
        · rw [if_neg hk] at h
          simp at h

theorem next_head {x : Nat} {r : List Nat} {op : Nat} {p c : List Nat}
    (h : next (x :: r) = some (op, p, c)) : op = x := by
  simp only [next] at h
  by_cases hb : x = PUSHDATA1
  · rw [if_pos hb] at h
    match r with
    | [] => simp at h
    | n :: r2 =>
      simp only at h
      by_cases hn : n ≤ r2.length
      · rw [if_pos hn] at h
        simp only [Option.some.injEq, Prod.mk.injEq] at h
        exact h.1.symm
      · rw [if_neg hn] at h
        simp at h
  · rw [if_neg hb] at h
    cases hs : opSize x with
    | none => rw [hs] at h; simp at h
    | some k =>
      rw [hs] at h
      simp only at h
      by_cases hk : k ≤ r.length
      · rw [if_pos hk] at h
        simp only [Option.some.injEq, Prod.mk.injEq] at h
        exact h.1.symm
      · rw [if_neg hk] at h
        simp at h

theorem parseKeys_inv (fuel : Nat) (ctx : List Nat) (pubs0 : List (List Nat)) (n0 : Nat)
    {pubs : List (List Nat)} {nkeys instr : Nat} {param ctx2 : List Nat}
    (h : parseKeys fuel ctx pubs0 n0 = some (pubs, nkeys, instr, param, ctx2)) :
    ∃ newkeys, pubs = pubs0 ++ newkeys ∧ nkeys = n0 + newkeys.length ∧
      (∀ k ∈ newkeys, 33 ≤ k.length) ∧
      ctx = (newkeys.map pushData1).flatten ++ (encodeInstr instr param ++ ctx2) ∧
      instr ≠ PUSHDATA1 ∧ opSize instr = some param.length := by
  induction fuel generalizing ctx pubs0 n0 with
  | zero => simp [parseKeys] at h
  | succ fuel ih =>
    simp only [parseKeys] at h
    cases hn : next ctx with
    | none => rw [hn] at h; simp at h
    | some t =>
      obtain ⟨i, p, c2⟩ := t
      rw [hn] at h
      simp only at h
      by_cases hi : i = PUSHDATA1
      · rw [if_pos hi] at h
        by_cases hshort : p.length < 33
        · rw [if_pos hshort] at h
          simp at h
        · rw [if_neg hshort] at h
          by_cases hcnt : n0 + 1 > MaxArraySize
          · rw [if_pos hcnt] at h
            simp at h
          · rw [if_neg hcnt] at h
            obtain ⟨nk, hpubs, hnk, hall, hctx, hni, hsz⟩ := ih c2 (pubs0 ++ [p]) (n0 + 1) h
            obtain ⟨hc, -⟩ := next_inv hn
            refine ⟨p :: nk, ?_, ?_, ?_, ?_, hni, hsz⟩
            · rw [hpubs]; simp
            · rw [hnk]; simp only [List.length_cons]; omega
            · intro k hk
              rcases List.mem_cons.mp hk with rfl | hk'
              · omega
              · exact hall k hk'
            · rw [hc, hctx, hi]
              simp only [encodeInstr, if_pos rfl, if_true, List.map_cons, List.flatten_cons,
                pushData1, List.cons_append, List.append_assoc]
      · rw [if_neg hi] at h
        simp only [Option.some.injEq, Prod.mk.injEq] at h
        obtain ⟨h1, h2, h3, h4, h5⟩ := h
        subst h1; subst h2; subst h3; subst h4; subst h5
        obtain ⟨hc, hside⟩ := next_inv hn
        rcases hside with hpd | hsz
        · exact absurd hpd hi
        · exact ⟨[], by simp, by simp, by simp, by simpa using hc, hi, hsz⟩

/-! ### Spec-side templates (§4.1) and classifier soundness -/

/-- Follows the spec's words (§4.1): a numeric push is a small-integer
push opcode `PUSH1..PUSH16` or a one- or two-byte (little-endian)
immediate push. -/
def numPushEnc (enc : List Nat) (v : Nat) : Prop :=
  (1 ≤ v ∧ v ≤ 16 ∧ enc = [PUSH1 + (v - 1)]) ∨
  (enc = [PUSHBYTES1, v]) ∨
  (∃ a b, v = a + 256 * b ∧ enc = [PUSHBYTES2, a, b])

/-- Follows the spec's words (§4.1): the canonical m-of-n multisig
verification script — `push(m)`, `n ≥ 1` `PUSHDATA1` keys of at least 33
bytes, `push(n)`, `PUSHNULL`, `SYSCALL` with the `ECDsaCheckMultiSig`
identifier, and a final `RET` with nothing after it. -/
def specMultiSigTemplate (b : List Nat) : Prop :=
  ∃ (m : Nat) (menc nenc : List Nat) (keys : List (List Nat)) (idb : List Nat),
    numPushEnc menc m ∧ numPushEnc nenc keys.length ∧
    1 ≤ m ∧ m ≤ keys.length ∧ 1 ≤ keys.length ∧ keys.length ≤ MaxArraySize ∧
    (∀ k ∈ keys, 33 ≤ k.length) ∧
    idb.length = 4 ∧ uint32LE idb = POr.ok multisigInteropID ∧
    b = menc ++ (keys.map pushData1).flatten ++ nenc ++
        PUSHNULL :: SYSCALL :: idb ++ [RET]

/-- Follows the spec's words (§4.1): the 41-byte signature verification
script — `PUSHDATA1` with a 33-byte key, `PUSHNULL`, `SYSCALL` with the
`ECDsaVerify` identifier. -/
def specSignatureTemplate (b : List Nat) : Prop :=
  ∃ (key idb : List Nat), key.length = 33 ∧ idb.length = 4 ∧
    uint32LE idb = POr.ok verifyInteropID ∧
    b = PUSHDATA1 :: 33 :: key ++ PUSHNULL :: SYSCALL :: idb

theorem getNum_encodes {instr : Nat} {param : List Nat} {v : Nat}
    (h : getNumOfThingsFromInstr instr param = POr.ok (some v))
    (hsz : opSize instr = some param.length) :
    numPushEnc (encodeInstr instr param) v ∧ 1 ≤ v ∧ v ≤ MaxArraySize := by
  obtain ⟨h1, h2, hd⟩ := (getNum_some_iff instr param v).mp h
  refine ⟨?_, h1, h2⟩
  rcases hd with ⟨h17, h32, hv⟩ | ⟨hb, hh⟩ | ⟨hb, a, b, t, hp, hv⟩
  · have h0 : opSize instr = some 0 := opSize_push instr h17 h32
    rw [h0] at hsz
    have hlen : (0 : Nat) = param.length := Option.some.inj hsz
    have hp0 : param = [] := List.eq_nil_of_length_eq_zero hlen.symm
    subst hp0
    left
    have hne : instr ≠ PUSHDATA1 := by
      simp only [PUSH1] at h17
      simp only [PUSHDATA1]
      omega
    simp only [PUSH1, PUSH16] at h17 h32 hv
    refine ⟨h1, by omega, ?_⟩
    simp only [encodeInstr, if_neg hne]
    have hinstr : instr = PUSH1 + (v - 1) := by
      simp only [PUSH1]
      omega
    rw [hinstr]
  · subst hb
    have h0 : opSize PUSHBYTES1 = some 1 := by decide
    rw [h0] at hsz
    obtain ⟨x, rfl⟩ := List.length_eq_one.mp (Option.some.inj hsz).symm
    have hx : x = v := by simpa using hh
    subst hx
    right; left
    simp [encodeInstr, PUSHBYTES1, PUSHDATA1]
  · subst hb
    subst hp
    have h0 : opSize PUSHBYTES2 = some 2 := by decide
    rw [h0] at hsz
    have hlen := Option.some.inj hsz
    have ht : t = [] := by
      simp only [List.length_cons] at hlen
      exact List.eq_nil_of_length_eq_zero (by omega)
    subst ht
    subst hv
    right; right
    exact ⟨a, b, rfl, by simp [encodeInstr, PUSHBYTES2, PUSHDATA1]⟩

theorem getNum_total {i : Nat} {p : List Nat}
    (hside : i = PUSHDATA1 ∨ opSize i = some p.length) :
    ∃ r, getNumOfThingsFromInstr i p = POr.ok r := by
  by_cases hp : PUSH1 ≤ i ∧ i ≤ PUSH16
  · refine ⟨if i - PUSH1 + 1 < 1 ∨ i - PUSH1 + 1 > MaxArraySize then none
            else some (i - PUSH1 + 1), ?_⟩
    simp only [getNumOfThingsFromInstr, if_pos hp]
  · by_cases hb1 : i = PUSHBYTES1
    · subst hb1
      rcases hside with hpd | hsz
      · exact absurd hpd (by decide)
      · have h0 : opSize PUSHBYTES1 = some 1 := by decide
        rw [h0] at hsz
        obtain ⟨x, rfl⟩ := List.length_eq_one.mp (Option.some.inj hsz).symm
        refine ⟨if x < 1 ∨ x > MaxArraySize then none else some x, ?_⟩
        simp only [getNumOfThingsFromInstr, if_neg hp, if_pos rfl, if_true, headPanic]
    · by_cases hb2 : i = PUSHBYTES2
      · subst hb2
        rcases hside with hpd | hsz
        · exact absurd hpd (by decide)
        · have h0 : opSize PUSHBYTES2 = some 2 := by decide
          rw [h0] at hsz
          have hlen := (Option.some.inj hsz).symm
          match p, hlen with
          | [a, b], _ =>
            refine ⟨if a + 256 * b < 1 ∨ a + 256 * b > MaxArraySize then none
                    else some (a + 256 * b), ?_⟩
            simp only [getNumOfThingsFromInstr, if_neg hp,
              if_neg (by decide : ¬(PUSHBYTES2 = PUSHBYTES1)), if_pos rfl, if_true, uint16LE]
      · exact ⟨none, by simp only [getNumOfThingsFromInstr, if_neg hp, if_neg hb1, if_neg hb2]⟩

theorem uint32_total {p : List Nat} (h : p.length = 4) : ∃ x, uint32LE p = POr.ok x := by
  match p with
  | a :: b :: c :: d :: t => exact ⟨_, rfl⟩
  | [] => simp at h
  | [a] => simp at h
  | [a, b] => simp at h
  | [a, b, c] => simp at h


theorem parse_total (b : List Nat) : ∃ r, ParseMultiSigContract b = POr.ok r := by
  simp only [ParseMultiSigContract]
  cases hn1 : next b with
  | none => exact ⟨none, rfl⟩
  | some t1 =>
    obtain ⟨i1, p1, c1⟩ := t1
    obtain ⟨r1, hr1⟩ := getNum_total (next_inv hn1).2
    rcases r1 with _ | nsigs
    · simp only [hr1]
      exact ⟨none, rfl⟩
    · simp only [hr1]
      cases hpk : parseKeys (c1.length + 1) c1 [] 0 with
      | none => exact ⟨none, rfl⟩
      | some t2 =>
        obtain ⟨pubs, nkeys, i2, p2, c2⟩ := t2
        by_cases hml : nkeys < nsigs
        · simp only [if_pos hml]
          exact ⟨none, rfl⟩
        · simp only [if_neg hml]
          obtain ⟨nk, -, -, -, -, hi2, hsz2⟩ := parseKeys_inv _ _ _ _ hpk
          obtain ⟨r2, hr2⟩ := getNum_total (Or.inr hsz2)
          rcases r2 with _ | nk2
          · simp only [hr2]
            exact ⟨none, rfl⟩
          · simp only [hr2]
            by_cases hne : nk2 ≠ nkeys
            · simp only [if_pos hne]
              exact ⟨none, rfl⟩
            · simp only [if_neg hne]
              cases hn3 : next c2 with
              | none => exact ⟨none, rfl⟩
              | some t3 =>
                obtain ⟨i3, p3, c3⟩ := t3
                by_cases hi3 : i3 ≠ PUSHNULL
                · simp only [if_pos hi3]
                  exact ⟨none, rfl⟩
                · simp only [if_neg hi3]
                  cases hn4 : next c3 with
                  | none => exact ⟨none, rfl⟩
                  | some t4 =>
                    obtain ⟨i4, p4, c4⟩ := t4
                    by_cases hi4 : i4 ≠ SYSCALL
                    · simp only [if_pos hi4]
                      exact ⟨none, rfl⟩
                    · simp only [if_neg hi4]
                      have hp4 : p4.length = 4 := by
                        have hi4' : i4 = SYSCALL := not_not.mp hi4
                        rcases (next_inv hn4).2 with hpd | hsz4
                        · rw [hi4'] at hpd
                          exact absurd hpd (by decide)
                        · rw [hi4'] at hsz4
                          have h4 : opSize SYSCALL = some 4 := by decide
                          rw [h4] at hsz4
                          exact (Option.some.inj hsz4).symm
                      obtain ⟨x, hx⟩ := uint32_total hp4
                      simp only [hx]
                      by_cases hid : x ≠ multisigInteropID
                      · simp only [if_pos hid]
                        exact ⟨none, rfl⟩
                      · simp only [if_neg hid]
                        cases hn5 : next c4 with
                        | none => exact ⟨none, rfl⟩
                        | some t5 =>
                          obtain ⟨i5, p5, c5⟩ := t5
                          by_cases hi5 : i5 ≠ RET
                          · simp only [if_pos hi5]
                            exact ⟨none, rfl⟩
                          · simp only [if_neg hi5]
                            by_cases hc5 : c5 ≠ []
                            · simp only [if_pos hc5]
                              exact ⟨none, rfl⟩
                            · simp only [if_neg hc5]
                              exact ⟨some pubs, rfl⟩

theorem isSig_total (b : List Nat) : ∃ r, IsSignatureContract b = POr.ok r := by
  simp only [IsSignatureContract]
  by_cases hlen : b.length ≠ 41
  · simp only [if_pos hlen]
    exact ⟨false, rfl⟩
  · simp only [if_neg hlen]
    cases hn1 : next b with
    | none => exact ⟨false, rfl⟩
    | some t1 =>
      obtain ⟨i1, p1, c1⟩ := t1
      by_cases h1 : i1 ≠ PUSHDATA1 ∨ p1.length ≠ 33
      · simp only [if_pos h1]
        exact ⟨false, rfl⟩
      · simp only [if_neg h1]
        cases hn2 : next c1 with
        | none => exact ⟨false, rfl⟩
        | some t2 =>
          obtain ⟨i2, p2, c2⟩ := t2
          by_cases h2 : i2 ≠ PUSHNULL
          · simp only [if_pos h2]
            exact ⟨false, rfl⟩
          · simp only [if_neg h2]
            cases hn3 : next c2 with
            | none => exact ⟨false, rfl⟩
            | some t3 =>
              obtain ⟨i3, p3, c3⟩ := t3
              by_cases h3 : i3 ≠ SYSCALL
              · simp only [if_pos h3]
                exact ⟨false, rfl⟩
              · simp only [if_neg h3]
                have hp3 : p3.length = 4 := by
                  have hi3' : i3 = SYSCALL := not_not.mp h3
                  rcases (next_inv hn3).2 with hpd | hsz3
                  · rw [hi3'] at hpd
                    exact absurd hpd (by decide)
                  · rw [hi3'] at hsz3
                    have h4 : opSize SYSCALL = some 4 := by decide
                    rw [h4] at hsz3
                    exact (Option.some.inj hsz3).symm
                obtain ⟨x, hx⟩ := uint32_total hp3
                simp only [hx]
                exact ⟨decide (x = verifyInteropID), rfl⟩


theorem getNum_pushdata {p : List Nat} {v : Nat} :
    getNumOfThingsFromInstr PUSHDATA1 p ≠ POr.ok (some v) := by
  intro h
  obtain ⟨-, -, hd⟩ := (getNum_some_iff _ _ _).mp h
  rcases hd with ⟨h17, -, -⟩ | ⟨hb, -⟩ | ⟨hb, -⟩
  · exact absurd h17 (by decide)
  · exact absurd hb (by decide)
  · exact absurd hb (by decide)

theorem parse_accept_template {b : List Nat} {pubs : List (List Nat)}
    (h : ParseMultiSigContract b = POr.ok (some pubs)) : specMultiSigTemplate b := by
  simp only [ParseMultiSigContract] at h
  cases hn1 : next b with
  | none => rw [hn1] at h; simp at h
  | some t1 =>
    obtain ⟨i1, p1, c1⟩ := t1
    rw [hn1] at h
    obtain ⟨r1, hr1⟩ := getNum_total (next_inv hn1).2
    simp only [hr1] at h
    rcases r1 with _ | nsigs
    · simp at h
    · cases hpk : parseKeys (c1.length + 1) c1 [] 0 with
      | none => simp only [hpk] at h; simp at h
      | some t2 =>
        obtain ⟨pubs2, nkeys, i2, p2, c2⟩ := t2
        simp only [hpk] at h
        by_cases hml : nkeys < nsigs
        · rw [if_pos hml] at h; simp at h
        · rw [if_neg hml] at h
          obtain ⟨nk, hpubs2, hnkeys, hall, hc1, hi2, hsz2⟩ := parseKeys_inv _ _ _ _ hpk
          obtain ⟨r2, hr2⟩ := getNum_total (Or.inr hsz2)
          rcases r2 with _ | nk2
          · simp only [hr2] at h
            simp at h
          · simp only [hr2] at h
            by_cases hne : nk2 ≠ nkeys
            · rw [if_pos hne] at h; simp at h
            · rw [if_neg hne] at h
              cases hn3 : next c2 with
              | none => simp only [hn3] at h; simp at h
              | some t3 =>
                obtain ⟨i3, p3, c3⟩ := t3
                simp only [hn3] at h
                by_cases hi3 : i3 ≠ PUSHNULL
                · rw [if_pos hi3] at h; simp at h
                · rw [if_neg hi3] at h
                  cases hn4 : next c3 with
                  | none => simp only [hn4] at h; simp at h
                  | some t4 =>
                    obtain ⟨i4, p4, c4⟩ := t4
                    simp only [hn4] at h
                    by_cases hi4 : i4 ≠ SYSCALL
                    · rw [if_pos hi4] at h; simp at h
                    · rw [if_neg hi4] at h
                      have hi4' : i4 = SYSCALL := not_not.mp hi4
                      have hp4 : p4.length = 4 := by
                        rcases (next_inv hn4).2 with hpd | hsz4
                        · rw [hi4'] at hpd
                          exact absurd hpd (by decide)
                        · rw [hi4'] at hsz4
                          have h4 : opSize SYSCALL = some 4 := by decide
                          rw [h4] at hsz4
                          exact (Option.some.inj hsz4).symm
                      obtain ⟨x, hx⟩ := uint32_total hp4
                      simp only [hx] at h
                      by_cases hid : x ≠ multisigInteropID
                      · rw [if_pos hid] at h; simp at h
                      · rw [if_neg hid] at h
                        have hid' : x = multisigInteropID := not_not.mp hid
                        cases hn5 : next c4 with
                        | none => simp only [hn5] at h; simp at h
                        | some t5 =>
                          obtain ⟨i5, p5, c5⟩ := t5
                          simp only [hn5] at h
                          by_cases hi5 : i5 ≠ RET
                          · rw [if_pos hi5] at h; simp at h
                          · rw [if_neg hi5] at h
                            by_cases hc5 : c5 ≠ []
                            · rw [if_pos hc5] at h; simp at h
                            · rw [if_neg hc5] at h
                              have hi3' : i3 = PUSHNULL := not_not.mp hi3
                              have hi5' : i5 = RET := not_not.mp hi5
                              have hc5' : c5 = [] := not_not.mp hc5
                              have hne' : nk2 = nkeys := not_not.mp hne
                              have hsz1 : opSize i1 = some p1.length := by
                                rcases (next_inv hn1).2 with hpd | hs
                                · rw [hpd] at hr1
                                  exact absurd hr1 getNum_pushdata
                                · exact hs
                              obtain ⟨henc1, hb1, hb2⟩ := getNum_encodes hr1 hsz1
                              obtain ⟨henc2, hc1b, hc2b⟩ := getNum_encodes hr2 hsz2
                              obtain ⟨hbb, -⟩ := next_inv hn1
                              obtain ⟨hcc2, -⟩ := next_inv hn3
                              obtain ⟨hcc3, -⟩ := next_inv hn4
                              obtain ⟨hcc4, side5⟩ := next_inv hn5
                              have hp3 : p3 = [] := by
                                rcases (next_inv hn3).2 with hpd | hsz3
                                · rw [hi3'] at hpd
                                  exact absurd hpd (by decide)
                                · rw [hi3'] at hsz3
                                  have h0 : opSize PUSHNULL = some 0 := by decide
                                  rw [h0] at hsz3
                                  exact List.eq_nil_of_length_eq_zero
                                    (Option.some.inj hsz3).symm
                              have hp5 : p5 = [] := by
                                rcases side5 with hpd | hsz5
                                · rw [hi5'] at hpd
                                  exact absurd hpd (by decide)
                                · rw [hi5'] at hsz5
                                  have h0 : opSize RET = some 0 := by decide
                                  rw [h0] at hsz5
                                  exact List.eq_nil_of_length_eq_zero
                                    (Option.some.inj hsz5).symm
                              have hnk2len : nk2 = nk.length := by
                                rw [hne', hnkeys]
                                omega
                              refine ⟨nsigs, encodeInstr i1 p1, encodeInstr i2 p2, nk, p4,
                                henc1, ?_, hb1, ?_, ?_, ?_, hall, hp4, ?_, ?_⟩
                              · rw [← hnk2len]
                                exact henc2
                              · omega
                              · omega
                              · omega
                              · rw [← hid']
                                exact hx
                              · rw [hbb, hc1, hcc2, hcc3, hcc4, hc5', hi3', hi4', hi5',
                                  hp3, hp5]
                                simp only [encodeInstr, if_neg (by decide : ¬(PUSHNULL = PUSHDATA1)),
                                  if_neg (by decide : ¬(SYSCALL = PUSHDATA1)),
                                  if_neg (by decide : ¬(RET = PUSHDATA1))]
                                simp [List.append_assoc]


theorem isSig_iff_template (b : List Nat) :
    IsSignatureContract b = POr.ok true ↔ specSignatureTemplate b := by
  constructor
  · intro h
    simp only [IsSignatureContract] at h
    by_cases hlen : b.length ≠ 41
    · rw [if_pos hlen] at h
      simp at h
    · rw [if_neg hlen] at h
      have hlen' : b.length = 41 := not_not.mp hlen
      cases hn1 : next b with
      | none => simp only [hn1] at h; simp at h
      | some t1 =>
        obtain ⟨i1, p1, c1⟩ := t1
        simp only [hn1] at h
        by_cases h1 : i1 ≠ PUSHDATA1 ∨ p1.length ≠ 33
        · rw [if_pos h1] at h
          simp at h
        · rw [if_neg h1] at h
          push_neg at h1
          obtain ⟨hi1, hp1⟩ := h1
          cases hn2 : next c1 with
          | none => simp only [hn2] at h; simp at h
          | some t2 =>
            obtain ⟨i2, p2, c2⟩ := t2
            simp only [hn2] at h
            by_cases h2 : i2 ≠ PUSHNULL
            · rw [if_pos h2] at h
              simp at h
            · rw [if_neg h2] at h
              have hi2 : i2 = PUSHNULL := not_not.mp h2
              cases hn3 : next c2 with
              | none => simp only [hn3] at h; simp at h
              | some t3 =>
                obtain ⟨i3, p3, c3⟩ := t3
                simp only [hn3] at h
                by_cases h3 : i3 ≠ SYSCALL
                · rw [if_pos h3] at h
                  simp at h
                · rw [if_neg h3] at h
                  have hi3 : i3 = SYSCALL := not_not.mp h3
                  have hp3 : p3.length = 4 := by
                    rcases (next_inv hn3).2 with hpd | hsz3
                    · rw [hi3] at hpd
                      exact absurd hpd (by decide)
                    · rw [hi3] at hsz3
                      have h4 : opSize SYSCALL = some 4 := by decide
                      rw [h4] at hsz3
                      exact (Option.some.inj hsz3).symm
                  obtain ⟨x, hx⟩ := uint32_total hp3
                  simp only [hx] at h
                  have hxv : x = verifyInteropID := by simpa using h
                  have hp2 : p2 = [] := by
                    rcases (next_inv hn2).2 with hpd | hsz2
                    · rw [hi2] at hpd
                      exact absurd hpd (by decide)
                    · rw [hi2] at hsz2
                      have h0 : opSize PUSHNULL = some 0 := by decide
                      rw [h0] at hsz2
                      exact List.eq_nil_of_length_eq_zero (Option.some.inj hsz2).symm
                  obtain ⟨hbb, -⟩ := next_inv hn1
                  obtain ⟨hcc1, -⟩ := next_inv hn2
                  obtain ⟨hcc2, -⟩ := next_inv hn3
                  rw [hi1] at hbb
                  rw [hi2, hp2] at hcc1
                  rw [hi3] at hcc2
                  simp only [encodeInstr, if_pos rfl, if_true,
                    if_neg (by decide : ¬(PUSHNULL = PUSHDATA1)),
                    if_neg (by decide : ¬(SYSCALL = PUSHDATA1))] at hbb hcc1 hcc2
                  have hc3 : c3 = [] := by
                    have := hlen'
                    rw [hbb, hcc1, hcc2] at this
                    simp only [List.length_cons, List.length_append, hp1, hp3] at this
                    exact List.eq_nil_of_length_eq_zero (by omega)
                  refine ⟨p1, p3, hp1, hp3, hxv ▸ hx, ?_⟩
                  rw [hbb, hcc1, hcc2, hc3, hp1]
                  simp [List.append_assoc]
  · rintro ⟨key, idb, hkey, hidb, hu, rfl⟩
    have hlen : (PUSHDATA1 :: 33 :: key ++ PUSHNULL :: SYSCALL :: idb).length = 41 := by
      simp [hkey, hidb]
    simp only [IsSignatureContract, if_neg (not_not_intro hlen)]
    have hnext1 : next (PUSHDATA1 :: 33 :: key ++ PUSHNULL :: SYSCALL :: idb)
        = some (PUSHDATA1, key, PUSHNULL :: SYSCALL :: idb) := by
      have h := next_pushData1_append key (PUSHNULL :: SYSCALL :: idb)
      simp only [pushData1, hkey] at h
      simpa using h
    simp only [hnext1]
    rw [if_neg (by simp [hkey])]
    simp only [next_pushNull]
    rw [if_neg (fun hh => hh rfl)]
    have hnext3 : next (SYSCALL :: idb) = some (SYSCALL, idb, []) := by
      have h := next_syscall idb [] hidb
      simpa using h
    simp only [hnext3]
    rw [if_neg (fun hh => hh rfl)]
    simp only [hu]
    simp


/-- C1: on every byte buffer the classifier terminates with a normal
return value — never the panic outcome — and an accepting result is only
produced for a buffer that exactly matches one of the two §4.1 templates;
everything else is rejected by a normal `false`/`none` return. -/
theorem classifier_total_and_sound (b : List Nat) :
    (∃ r, ParseMultiSigContract b = POr.ok r) ∧
    (∃ r, IsSignatureContract b = POr.ok r) ∧
    (∃ r, IsMultiSigContract b = POr.ok r) ∧
    (∃ r, IsStandardContract b = POr.ok r) ∧
    (∀ pubs, ParseMultiSigContract b = POr.ok (some pubs) → specMultiSigTemplate b) ∧
    (IsSignatureContract b = POr.ok true → specSignatureTemplate b) := by
  obtain ⟨r1, hr1⟩ := parse_total b
  obtain ⟨r2, hr2⟩ := isSig_total b
  refine ⟨⟨r1, hr1⟩, ⟨r2, hr2⟩, ⟨r1.isSome, ?_⟩, ?_,
    fun pubs hp => parse_accept_template hp,
    fun hs => (isSig_iff_template b).mp hs⟩
  · simp only [IsMultiSigContract, hr1]
  · cases r2 with
    | false =>
      refine ⟨r1.isSome, ?_⟩
      simp only [IsStandardContract, hr2, IsMultiSigContract, hr1]
    | true =>
      refine ⟨true, ?_⟩
      simp only [IsStandardContract, hr2]

/-- C1 witness: both acceptance branches are non-vacuous — each canonical
script is accepted and therefore matches its spec template. -/
theorem classifier_total_and_sound_witness :
    specMultiSigTemplate (buildMultiSig 1 [List.replicate 33 7]) ∧
    specSignatureTemplate (buildSignatureScript (List.replicate 33 7)) :=
  ⟨(classifier_total_and_sound (buildMultiSig 1 [List.replicate 33 7])).2.2.2.2.1
      [List.replicate 33 7] (by decide),
    (classifier_total_and_sound (buildSignatureScript (List.replicate 33 7))).2.2.2.2.2
      (by decide)⟩

/-- C10: the two templates are mutually exclusive — a buffer accepted as a
signature contract is never accepted as a multisig contract (a multisig
script must begin with a numeric push, a signature script with
`PUSHDATA1`). -/
theorem sig_not_multisig (b : List Nat) (h : IsSignatureContract b = POr.ok true) :
    IsMultiSigContract b = POr.ok false := by
  obtain ⟨key, idb, hkey, hidb, hu, hb⟩ := (isSig_iff_template b).mp h
  subst hb
  simp only [List.cons_append, IsMultiSigContract, ParseMultiSigContract]
  cases hn : next (PUSHDATA1 :: 33 :: (key ++ PUSHNULL :: SYSCALL :: idb)) with
  | none => rfl
  | some t =>
    obtain ⟨i, p, c⟩ := t
    have hi := next_head hn
    subst hi
    obtain ⟨r, hr⟩ := @getNum_total PUSHDATA1 p (Or.inl rfl)
    rcases r with _ | v
    · simp [hr]
    · exact absurd hr getNum_pushdata

/-- C10 witness: a concrete signature script is classified as a signature
contract and not as a multisig contract. -/
theorem sig_not_multisig_witness :
    IsSignatureContract (buildSignatureScript (List.replicate 33 0)) = POr.ok true ∧
    IsMultiSigContract (buildSignatureScript (List.replicate 33 0)) = POr.ok false :=
  ⟨by decide, sig_not_multisig (buildSignatureScript (List.replicate 33 0)) (by decide)⟩


/-! ### Single-byte mutations of the signature template -/

theorem toLE4_verify : toLE4 verifyInteropID = [10, 144, 106, 212] := by decide

theorem bss_eq (key : List Nat) :
    buildSignatureScript key
      = PUSHDATA1 :: 33 :: (key ++ [PUSHNULL, SYSCALL, 10, 144, 106, 212]) := by
  simp only [buildSignatureScript, toLE4_verify, List.cons_append]

theorem next_pd33 (key rest : List Nat) (hkey : key.length = 33) :
    next (PUSHDATA1 :: 33 :: (key ++ rest)) = some (PUSHDATA1, key, rest) := by
  have h := next_pushData1_append key rest
  simp only [pushData1, hkey, List.cons_append] at h
  exact h

theorem isSig_false_first (x : Nat) (rest : List Nat) (hx : x ≠ PUSHDATA1) :
    IsSignatureContract (x :: rest) = POr.ok false := by
  simp only [IsSignatureContract]
  by_cases hlen : (x :: rest).length ≠ 41
  · rw [if_pos hlen]
  · rw [if_neg hlen]
    cases hn : next (x :: rest) with
    | none => rfl
    | some t =>
      obtain ⟨i, p, c⟩ := t
      have hi := next_head hn
      have hcond : i ≠ PUSHDATA1 ∨ p.length ≠ 33 := Or.inl (hi ▸ hx)
      simp only [if_pos hcond]

theorem isSig_false_lenbyte (v : Nat) (T : List Nat) (hv : v ≠ 33) :
    IsSignatureContract (PUSHDATA1 :: v :: T) = POr.ok false := by
  simp only [IsSignatureContract]
  by_cases hlen : (PUSHDATA1 :: v :: T).length ≠ 41
  · rw [if_pos hlen]
  · rw [if_neg hlen]
    by_cases hvT : v ≤ T.length
    · have hn : next (PUSHDATA1 :: v :: T) = some (PUSHDATA1, T.take v, T.drop v) := by
        simp [next, hvT]
      simp only [hn]
      rw [if_pos (Or.inr (by rw [List.length_take]; omega))]
    · have hn : next (PUSHDATA1 :: v :: T) = none := by
        simp [next, hvT]
      simp only [hn]

theorem isSig_false_second (key rest : List Nat) (hkey : key.length = 33)
    (hlen : (PUSHDATA1 :: 33 :: (key ++ rest)).length = 41)
    (h2 : ∀ i2 p2 c2, next rest = some (i2, p2, c2) → i2 ≠ PUSHNULL) :
    IsSignatureContract (PUSHDATA1 :: 33 :: (key ++ rest)) = POr.ok false := by
  simp only [IsSignatureContract, if_neg (not_not_intro hlen), next_pd33 key rest hkey]
  rw [if_neg (by simp [hkey])]
  cases hn : next rest with
  | none => rfl
  | some t =>
    obtain ⟨i2, p2, c2⟩ := t
    simp only [if_pos (h2 i2 p2 c2 hn)]

theorem isSig_false_third (key rest2 : List Nat) (hkey : key.length = 33)
    (hlen : (PUSHDATA1 :: 33 :: (key ++ PUSHNULL :: rest2)).length = 41)
    (h3 : ∀ i3 p3 c3, next rest2 = some (i3, p3, c3) → i3 ≠ SYSCALL) :
    IsSignatureContract (PUSHDATA1 :: 33 :: (key ++ PUSHNULL :: rest2)) = POr.ok false := by
  simp only [IsSignatureContract, if_neg (not_not_intro hlen),
    next_pd33 key (PUSHNULL :: rest2) hkey]
  rw [if_neg (by simp [hkey])]
  simp only [next_pushNull]
  rw [if_neg (fun hh => hh rfl)]
  cases hn : next rest2 with
  | none => rfl
  | some t =>
    obtain ⟨i3, p3, c3⟩ := t
    simp only [if_pos (h3 i3 p3 c3 hn)]

theorem isSig_false_badid (key idb : List Nat) (hkey : key.length = 33)
    (hidb : idb.length = 4)
    (hbad : ∀ x, uint32LE idb = POr.ok x → x ≠ verifyInteropID) :
    IsSignatureContract (PUSHDATA1 :: 33 :: (key ++ PUSHNULL :: SYSCALL :: idb))
      = POr.ok false := by
  have hlen : (PUSHDATA1 :: 33 :: (key ++ PUSHNULL :: SYSCALL :: idb)).length = 41 := by
    simp [hkey, hidb]
  simp only [IsSignatureContract, if_neg (not_not_intro hlen),
    next_pd33 key (PUSHNULL :: SYSCALL :: idb) hkey]
  rw [if_neg (by simp [hkey])]
  simp only [next_pushNull]
  rw [if_neg (fun hh => hh rfl)]
  have hn3 : next (SYSCALL :: idb) = some (SYSCALL, idb, []) := by
    have h := next_syscall idb [] hidb
    simpa using h
  simp only [hn3]
  rw [if_neg (fun hh => hh rfl)]
  obtain ⟨x, hx⟩ := uint32_total hidb
  simp only [hx]
  simp [hbad x hx]


theorem set_after_key (key S : List Nat) (hkey : key.length = 33) (j v : Nat) :
    (PUSHDATA1 :: 33 :: (key ++ S)).set (35 + j) v
      = PUSHDATA1 :: 33 :: (key ++ S.set j v) := by
  have h1 : 35 + j = ((33 + j) + 1) + 1 := by omega
  rw [h1]
  simp only [List.set_cons_succ]
  rw [List.set_append_right (33 + j) v (by omega), hkey]
  have h2 : 33 + j - 33 = j := by omega
  rw [h2]

theorem getD_after_key (key S : List Nat) (hkey : key.length = 33) (j : Nat) :
    (PUSHDATA1 :: 33 :: (key ++ S)).getD (35 + j) 0 = S.getD j 0 := by
  have h1 : 35 + j = ((33 + j) + 1) + 1 := by omega
  rw [h1]
  simp only [List.getD_cons_succ]
  rw [List.getD_append_right key S 0 (33 + j) (by omega), hkey]
  have h2 : 33 + j - 33 = j := by omega
  rw [h2]

/-- C4 (amended): `IsSignatureContract` is true exactly on the 41-byte
template; mutating any single byte outside the 33-byte public-key operand
(positions 0, 1 and 35–40) makes it false, while mutating a byte inside
the public-key operand (positions 2–34) leaves it true. -/
theorem isSignature_template_and_mutations :
    (∀ b, IsSignatureContract b = POr.ok true ↔ specSignatureTemplate b) ∧
    (∀ key i v, key.length = 33 → i < 41 → (i < 2 ∨ 35 ≤ i) →
      v ≠ (buildSignatureScript key).getD i 0 →
      IsSignatureContract ((buildSignatureScript key).set i v) = POr.ok false) ∧
    (∀ key i v, key.length = 33 → i ≤ 32 →
      IsSignatureContract ((buildSignatureScript key).set (2 + i) v) = POr.ok true) := by
  refine ⟨isSig_iff_template, ?_, ?_⟩
  · intro key i v hkey hi41 hpos hv
    rw [bss_eq] at hv ⊢
    rcases hpos with hlt2 | hge35
    · interval_cases i
      · simp only [List.set_cons_zero]
        simp only [List.getD_cons_zero] at hv
        exact isSig_false_first v _ hv
      · simp only [List.set_cons_succ, List.set_cons_zero]
        simp only [List.getD_cons_succ, List.getD_cons_zero] at hv
        exact isSig_false_lenbyte v _ hv
    · obtain ⟨j, rfl⟩ : ∃ j, i = 35 + j := ⟨i - 35, by omega⟩
      have hj6 : j < 6 := by omega
      rw [set_after_key key _ hkey j v]
      rw [getD_after_key key _ hkey j] at hv
      interval_cases j
      · exact isSig_false_second key (v :: [SYSCALL, 10, 144, 106, 212]) hkey
          (by simp [hkey]) (fun i2 p2 c2 hn => (next_head hn) ▸ hv)
      · exact isSig_false_third key (v :: [10, 144, 106, 212]) hkey
          (by simp [hkey]) (fun i3 p3 c3 hn => (next_head hn) ▸ hv)
      · refine isSig_false_badid key [v, 144, 106, 212] hkey (by simp) ?_
        intro x hx hxv
        simp only [uint32LE, POr.ok.injEq] at hx
        simp only [verifyInteropID] at hxv
        simp only [List.getD_cons_succ, List.getD_cons_zero] at hv
        omega
      · refine isSig_false_badid key [10, v, 106, 212] hkey (by simp) ?_
        intro x hx hxv
        simp only [uint32LE, POr.ok.injEq] at hx
        simp only [verifyInteropID] at hxv
        simp only [List.getD_cons_succ, List.getD_cons_zero] at hv
        omega
      · refine isSig_false_badid key [10, 144, v, 212] hkey (by simp) ?_
        intro x hx hxv
        simp only [uint32LE, POr.ok.injEq] at hx
        simp only [verifyInteropID] at hxv
        simp only [List.getD_cons_succ, List.getD_cons_zero] at hv
        omega
      · refine isSig_false_badid key [10, 144, 106, v] hkey (by simp) ?_
        intro x hx hxv
        simp only [uint32LE, POr.ok.injEq] at hx
        simp only [verifyInteropID] at hxv
        simp only [List.getD_cons_succ, List.getD_cons_zero] at hv
        omega
  · intro key i v hkey hi
    rw [bss_eq]
    have hset : (PUSHDATA1 :: 33 :: (key ++ [PUSHNULL, SYSCALL, 10, 144, 106, 212])).set (2 + i) v
        = PUSHDATA1 :: 33 :: (key.set i v ++ [PUSHNULL, SYSCALL, 10, 144, 106, 212]) := by
      have h1 : 2 + i = (i + 1) + 1 := by omega
      rw [h1]
      simp only [List.set_cons_succ]
      rw [List.set_append_left i v (by omega)]
    rw [hset]
    apply (isSig_iff_template _).mpr
    refine ⟨key.set i v, [10, 144, 106, 212], by simp [hkey], by simp, by decide, ?_⟩
    simp [List.cons_append]

/-- C4 counterexample: mutating a public-key byte of a valid signature
script yields a different single-byte-mutated script that is still
accepted, refuting the claim that any single-byte change yields false. -/
theorem isSignature_mutation_counterexample :
    IsSignatureContract (buildSignatureScript (List.replicate 33 0)) = POr.ok true ∧
    (buildSignatureScript (List.replicate 33 0)).set 2 1
      ≠ buildSignatureScript (List.replicate 33 0) ∧
    IsSignatureContract ((buildSignatureScript (List.replicate 33 0)).set 2 1)
      = POr.ok true := by
  exact ⟨by decide, by decide, by decide⟩

/-- C4 witness: a template-byte mutation turns classification false, a
key-byte mutation keeps it true. -/
theorem isSignature_template_and_mutations_witness :
    IsSignatureContract ((buildSignatureScript (List.replicate 33 0)).set 0 7)
      = POr.ok false ∧
    IsSignatureContract ((buildSignatureScript (List.replicate 33 0)).set (2 + 5) 9)
      = POr.ok true :=
  ⟨isSignature_template_and_mutations.2.1 (List.replicate 33 0) 0 7 (by decide) (by decide)
      (by decide) (by decide),
    isSignature_template_and_mutations.2.2 (List.replicate 33 0) 5 9 (by decide) (by decide)⟩


/-! ### Permission engine

The manifest/permission code itself is not among the sources (only its
tests are), so the data model and the four operations are modelled from
the spec (§3, §4.2), with the external signature-verification primitive
(§6) passed in as a function. -/

/-- Modelled from the spec: a manifest group entry, a
`{publicKey, signature}` pair. -/
structure Group where
  publicKey : List Nat
  signature : List Nat
  deriving DecidableEq

/-- Modelled from the spec: a permission target — Wildcard, a specific
contract identity, or a group public key. -/
inductive PermissionTarget where
  | wildcard : PermissionTarget
  | hash : List Nat → PermissionTarget
  | group : List Nat → PermissionTarget
  deriving DecidableEq

/-- Modelled from the spec: the permitted methods — wildcard or an
explicit set of method names matched by exact string equality. -/
inductive MethodSet where
  | wildcard : MethodSet
  | explicitNames : List String → MethodSet
  deriving DecidableEq

/-- Modelled from the spec: a permission entry `{target, methods}`. -/
structure Permission where
  target : PermissionTarget
  methods : MethodSet
  deriving DecidableEq

/-- Modelled from the spec: the manifest fields the permission engine
evaluates — name, `groups` and `permissions`; `supportedStandards`,
`abi`, `trusts` and `extra` carry no decision logic for these claims and
are omitted. -/
structure Manifest where
  name : String
  groups : List Group
  permissions : List Permission
  deriving DecidableEq

/-- Modelled from the spec: the default manifest — a single
Wildcard/Wildcard permission and empty groups. -/
def DefaultManifest (name : String) : Manifest :=
  { name := name, groups := [],
    permissions := [{ target := PermissionTarget.wildcard, methods := MethodSet.wildcard }] }

/-- Modelled from the spec: a group entry is valid for a contract
identity iff its signature verifies with its public key over the
identity's byte representation. -/
def Group.IsValidFor (verify : List Nat → List Nat → List Nat → Bool) (g : Group)
    (contractIdentity : List Nat) : Bool :=
  verify g.publicKey contractIdentity g.signature

/-- Modelled from the spec: `Manifest.IsValid` / `ValidateManifestGroups`
— every group entry must verify over the contract identity. -/
def Manifest.IsValid (verify : List Nat → List Nat → List Nat → Bool) (m : Manifest)
    (contractIdentity : List Nat) : Bool :=
  m.groups.all (fun g => Group.IsValidFor verify g contractIdentity)

/-- Modelled from the spec: `Permission.IsAllowed` — the identity part
matches by target kind (wildcard always, hash by exact identity equality,
group by key membership in the caller manifest's groups, with no
signature re-verification), then the method part matches by wildcard or
exact name membership. -/
def Permission.IsAllowed (p : Permission) (callerIdentity : List Nat)
    (callerManifest : Manifest) (method : String) : Bool :=
  (match p.target with
    | PermissionTarget.wildcard => true
    | PermissionTarget.hash h => decide (callerIdentity = h)
    | PermissionTarget.group k =>
        callerManifest.groups.any (fun g => decide (g.publicKey = k))) &&
  (match p.methods with
    | MethodSet.wildcard => true
    | MethodSet.explicitNames names => names.contains method)

/-- Modelled from the spec: `Manifest.CanCall` — true iff any permission
entry of the target manifest allows the caller and method. -/
def Manifest.CanCall (targetManifest : Manifest) (callerIdentity : List Nat)
    (callerManifest : Manifest) (method : String) : Bool :=
  targetManifest.permissions.any
    (fun p => p.IsAllowed callerIdentity callerManifest method)

/-- C6: manifest group validation is true iff every group entry's
signature verifies with its key over the identity — vacuously true with
zero groups, false as soon as one entry fails (a different identity or a
corrupted signature makes the corresponding `verify` call return false). -/
theorem manifest_isValid_iff (verify : List Nat → List Nat → List Nat → Bool)
    (m : Manifest) (identity : List Nat) :
    (Manifest.IsValid verify m identity = true ↔
      ∀ g ∈ m.groups, verify g.publicKey identity g.signature = true) ∧
    (m.groups = [] → Manifest.IsValid verify m identity = true) ∧
    (∀ g ∈ m.groups, verify g.publicKey identity g.signature = false →
      Manifest.IsValid verify m identity = false) := by
  have hiff : Manifest.IsValid verify m identity = true ↔
      ∀ g ∈ m.groups, verify g.publicKey identity g.signature = true := by
    simp [Manifest.IsValid, Group.IsValidFor, List.all_eq_true]
  refine ⟨hiff, fun h => hiff.mpr (by simp [h]), fun g hg hbad => ?_⟩
  cases hval : Manifest.IsValid verify m identity with
  | false => rfl
  | true => exact absurd (hiff.mp hval g hg) (by simp [hbad])

/-- C6 witness: with a toy verification primitive, an all-valid manifest
validates for its identity and fails for a different identity. -/
theorem manifest_isValid_iff_witness :
    Manifest.IsValid (fun pk msg sig => decide (sig = pk ++ msg))
      { name := "Test", groups := [{ publicKey := [5], signature := [5, 1, 2, 3] }],
        permissions := [] } [1, 2, 3] = true ∧
    Manifest.IsValid (fun pk msg sig => decide (sig = pk ++ msg))
      { name := "Test", groups := [{ publicKey := [5], signature := [5, 1, 2, 3] }],
        permissions := [] } [9, 9] = false :=
  ⟨(manifest_isValid_iff (fun pk msg sig => decide (sig = pk ++ msg))
      { name := "Test", groups := [{ publicKey := [5], signature := [5, 1, 2, 3] }],
        permissions := [] } [1, 2, 3]).1.mpr (by decide),
    (manifest_isValid_iff (fun pk msg sig => decide (sig = pk ++ msg))
      { name := "Test", groups := [{ publicKey := [5], signature := [5, 1, 2, 3] }],
        permissions := [] } [9, 9]).2.2
      { publicKey := [5], signature := [5, 1, 2, 3] } (by decide) (by decide)⟩

/-- C7: for a Group-targeted permission the identity part is a pure
key-membership test on the caller manifest's groups — independent of the
caller identity and of the stored signatures (no re-verification). -/
theorem isAllowed_group (k : List Nat) (ms : MethodSet) (id1 id2 : List Nat)
    (man : Manifest) (method : String) :
    (Permission.IsAllowed ⟨PermissionTarget.group k, ms⟩ id1 man method
      = Permission.IsAllowed ⟨PermissionTarget.group k, ms⟩ id2 man method) ∧
    (Permission.IsAllowed ⟨PermissionTarget.group k, MethodSet.wildcard⟩ id1 man method = true
      ↔ ∃ g ∈ man.groups, g.publicKey = k) ∧
    (∀ man2 : Manifest,
      man.groups.map Group.publicKey = man2.groups.map Group.publicKey →
      Permission.IsAllowed ⟨PermissionTarget.group k, ms⟩ id1 man method
        = Permission.IsAllowed ⟨PermissionTarget.group k, ms⟩ id1 man2 method) := by
  have e1 : ∀ (gs : List Group), gs.any (fun g => decide (g.publicKey = k))
      = (gs.map Group.publicKey).any (fun pk => decide (pk = k)) := by
    intro gs
    induction gs with
    | nil => rfl
    | cons g tl ih => simp [ih]
  refine ⟨rfl, ?_, ?_⟩
  · simp [Permission.IsAllowed, List.any_eq_true]
  · intro man2 hmap
    simp only [Permission.IsAllowed]
    rw [e1 man.groups, e1 man2.groups, hmap]

/-- C7 witness: concrete group-permission checks — membership grants,
non-membership denies, and the caller identity is irrelevant. -/
theorem isAllowed_group_witness :
    Permission.IsAllowed ⟨PermissionTarget.group [1], MethodSet.wildcard⟩ [0]
      { name := "Test", groups := [{ publicKey := [1], signature := [2] }],
        permissions := [] } "AAA" = true ∧
    Permission.IsAllowed ⟨PermissionTarget.group [3], MethodSet.wildcard⟩ [0]
      { name := "Test", groups := [{ publicKey := [1], signature := [2] }],
        permissions := [] } "AAA"
      = Permission.IsAllowed ⟨PermissionTarget.group [3], MethodSet.wildcard⟩ [7]
        { name := "Test", groups := [{ publicKey := [1], signature := [2] }],
          permissions := [] } "AAA" :=
  ⟨(isAllowed_group [1] MethodSet.wildcard [0] [7]
      { name := "Test", groups := [{ publicKey := [1], signature := [2] }],
        permissions := [] } "AAA").2.1.mpr
      ⟨{ publicKey := [1], signature := [2] }, by decide, rfl⟩,
    (isAllowed_group [3] MethodSet.wildcard [0] [7]
      { name := "Test", groups := [{ publicKey := [1], signature := [2] }],
        permissions := [] } "AAA").1⟩

/-- C8: `CanCall` is a pure existential OR over the target manifest's
permission entries, and a default manifest grants every caller/method
pair. -/
theorem canCall_existential (callerIdentity : List Nat) (callerManifest : Manifest)
    (targetManifest : Manifest) (method : String) :
    (Manifest.CanCall targetManifest callerIdentity callerManifest method = true ↔
      ∃ p ∈ targetManifest.permissions,
        Permission.IsAllowed p callerIdentity callerManifest method = true) ∧
    (∀ name, Manifest.CanCall (DefaultManifest name) callerIdentity callerManifest method
      = true) := by
  constructor
  · simp [Manifest.CanCall, List.any_eq_true]
  · intro name
    simp [Manifest.CanCall, DefaultManifest, Permission.IsAllowed]

/-- C8 witness: the scenario of the Go test — a default manifest lets any
caller call any method. -/
theorem canCall_existential_witness :
    Manifest.CanCall (DefaultManifest "Test1") (List.replicate 20 0)
      (DefaultManifest "Test2") "method1" = true :=
  (canCall_existential (List.replicate 20 0) (DefaultManifest "Test2")
    (DefaultManifest "Test1") "method1").2 "Test1"

/-! ### Historic invoker dispatch -/

/-- `historicConverter`: wraps a historic RPC client with exactly one of
a block hash, a height or a state root (hashes modelled as byte lists). -/
structure HistoricConverter where
  block : Option (List Nat)
  height : Option Nat
  root : Option (List Nat)

/-- Which underlying historic RPC method a dispatch resolves to; the
payload is the historic anchor passed on. -/
inductive HistoricTarget where
  | atBlock : List Nat → HistoricTarget
  | atHeight : Nat → HistoricTarget
  | withState : List Nat → HistoricTarget
  deriving DecidableEq

/-- `NewHistoricAtBlock` (signers and client omitted: they are passed
through unchanged). -/
def NewHistoricAtBlock (block : List Nat) : HistoricConverter :=
  { block := some block, height := none, root := none }

/-- `NewHistoricAtHeight`. -/
def NewHistoricAtHeight (height : Nat) : HistoricConverter :=
  { block := none, height := some height, root := none }

/-- `NewHistoricWithState`. -/
def NewHistoricWithState (root : List Nat) : HistoricConverter :=
  { block := none, height := none, root := some root }

/-- `historicConverter.InvokeScript`: block, then height, then root, else
the `uninitialized historicConverter` panic.  The client call is
abstracted to the selected target. -/
def HistoricConverter.InvokeScript (h : HistoricConverter) : POr HistoricTarget :=
  match h.block with
  | some b => POr.ok (HistoricTarget.atBlock b)
  | none =>
    match h.height with
    | some ht => POr.ok (HistoricTarget.atHeight ht)
    | none =>
      match h.root with
      | some r => POr.ok (HistoricTarget.withState r)
      | none => POr.panicked

/-- `historicConverter.InvokeFunction`: same cascade as `InvokeScript`,
dispatching to the function-invocation RPC family. -/
def HistoricConverter.InvokeFunction (h : HistoricConverter) : POr HistoricTarget :=
  match h.block with
  | some b => POr.ok (HistoricTarget.atBlock b)
  | none =>
    match h.height with
    | some ht => POr.ok (HistoricTarget.atHeight ht)
    | none =>
      match h.root with
      | some r => POr.ok (HistoricTarget.withState r)
      | none => POr.panicked

/-- `historicConverter.InvokeContractVerify`: same cascade, dispatching
to the contract-verification RPC family. -/
def HistoricConverter.InvokeContractVerify (h : HistoricConverter) : POr HistoricTarget :=
  match h.block with
  | some b => POr.ok (HistoricTarget.atBlock b)
  | none =>
    match h.height with
    | some ht => POr.ok (HistoricTarget.atHeight ht)
    | none =>
      match h.root with
      | some r => POr.ok (HistoricTarget.withState r)
      | none => POr.panicked

/-- C9: every constructor fills exactly one of the three fields, all
three dispatch methods on a constructor-built converter resolve to that
anchor without ever panicking, and the `uninitialized historicConverter`
panic is reached only by the all-empty converter no constructor builds. -/
theorem historicConverter_initialized (b : List Nat) (ht : Nat) (r : List Nat) :
    ((NewHistoricAtBlock b).block = some b ∧ (NewHistoricAtBlock b).height = none ∧
      (NewHistoricAtBlock b).root = none) ∧
    ((NewHistoricAtHeight ht).block = none ∧ (NewHistoricAtHeight ht).height = some ht ∧
      (NewHistoricAtHeight ht).root = none) ∧
    ((NewHistoricWithState r).block = none ∧ (NewHistoricWithState r).height = none ∧
      (NewHistoricWithState r).root = some r) ∧
    (NewHistoricAtBlock b).InvokeScript = POr.ok (HistoricTarget.atBlock b) ∧
    (NewHistoricAtBlock b).InvokeFunction = POr.ok (HistoricTarget.atBlock b) ∧
    (NewHistoricAtBlock b).InvokeContractVerify = POr.ok (HistoricTarget.atBlock b) ∧
    (NewHistoricAtHeight ht).InvokeScript = POr.ok (HistoricTarget.atHeight ht) ∧
    (NewHistoricAtHeight ht).InvokeFunction = POr.ok (HistoricTarget.atHeight ht) ∧
    (NewHistoricAtHeight ht).InvokeContractVerify = POr.ok (HistoricTarget.atHeight ht) ∧
    (NewHistoricWithState r).InvokeScript = POr.ok (HistoricTarget.withState r) ∧
    (NewHistoricWithState r).InvokeFunction = POr.ok (HistoricTarget.withState r) ∧
    (NewHistoricWithState r).InvokeContractVerify = POr.ok (HistoricTarget.withState r) ∧
    HistoricConverter.InvokeScript ⟨none, none, none⟩ = POr.panicked ∧
    HistoricConverter.InvokeFunction ⟨none, none, none⟩ = POr.panicked ∧
    HistoricConverter.InvokeContractVerify ⟨none, none, none⟩ = POr.panicked :=
  ⟨⟨rfl, rfl, rfl⟩, ⟨rfl, rfl, rfl⟩, ⟨rfl, rfl, rfl⟩, rfl, rfl, rfl, rfl, rfl, rfl,
    rfl, rfl, rfl, rfl, rfl, rfl⟩


end NeoGo
